import Mathlib

/-!
# Verification of `carbonplan_forests/prepare.py`

A shallow embedding of the feature-preparation pipeline of the forest-risks
repository (`scramble_2d`, `scramble_3d`, `smooth`, `fire`, `drought`,
`insects`), together with theorems settling the specification claims about it.

Embedding conventions:
* a 2-D gridded field is a `List (List (Option ℝ))` in (y, x) row-major order;
  `none` models a NaN (missing) cell;
* a (T, Y, X) cube is a time-major list of grids;
* float arithmetic is embedded as exact real arithmetic (`ℝ`), except inside
  the tabular `drought` / `insects` builders, whose data is embedded as `ℚ`
  so that everything there is executable;
* numpy's `fft2` / `ifft2` are the standard finite discrete Fourier transform
  and its inverse, over `ℂ`;
* the per-frequency uniform random draws of `np.random.rand` are modelled by
  an explicit oracle argument `rand` so that use (or non-use) of randomness is
  visible in the embedding;
* matrices built by `np.asarray([col, ...]).T` and glued by
  `np.concatenate(..., axis=1)` are represented column-major, as the list of
  their columns; concatenation along `axis=1` is then list append.
-/

namespace Prepare

/-! ## Definitions: the embedding of `prepare.py`, and the concrete instances the theorems evaluate -/

/-- A 2-D gridded field, indexed (y, x); `none` is a NaN (missing) cell. -/
abbrev Grid := List (List (Option ℝ))

/-- A (T, Y, X) time × space field, time-major. -/
abbrev Cube := List Grid

/-- Read cell (i, j) of a grid; out-of-range reads give `none` (missing). -/
def cellAt (g : Grid) (i j : ℕ) : Option ℝ := (g.getD i []).getD j none

/-- Read cell (t, i, j) of a cube. -/
def cellAt3 (cu : Cube) (t i j : ℕ) : Option ℝ := cellAt (cu.getD t []) i j

/-- The zero-filled complex read of a grid (`img[nan_inds] = 0` before the
FFT): missing and out-of-range cells read as `0`. -/
def zfill (g : Grid) : ℕ → ℕ → ℂ := fun i j => ((cellAt g i j).getD 0 : ℝ)

/-- `g` is a rectangular `m × n` grid. -/
def GridRect (g : Grid) (m n : ℕ) : Prop := g.length = m ∧ ∀ r ∈ g, r.length = n

/-- `cu` is a rectangular `T × ny × nx` cube. -/
def CubeRect (cu : Cube) (T ny nx : ℕ) : Prop :=
  cu.length = T ∧ ∀ g ∈ cu, GridRect g ny nx

/-- The 2-D discrete Fourier transform of numpy's `np.fft.fft2` on an
`m × n` array: `F[u,v] = Σ_x Σ_y f[x,y]·exp(-2πi(ux/m + vy/n))`. -/
noncomputable def dft2 (m n : ℕ) (f : ℕ → ℕ → ℂ) (u v : ℕ) : ℂ :=
  ∑ x ∈ Finset.range m, ∑ y ∈ Finset.range n,
    f x y * Complex.exp (-(2 * (Real.pi : ℂ) * Complex.I) *
      ((u : ℂ) * (x : ℂ) / (m : ℂ) + (v : ℂ) * (y : ℂ) / (n : ℂ)))

/-- The inverse 2-D discrete Fourier transform of `np.fft.ifft2`:
`f[x,y] = (1/(mn)) Σ_u Σ_v F[u,v]·exp(2πi(ux/m + vy/n))`. -/
noncomputable def idft2 (m n : ℕ) (F : ℕ → ℕ → ℂ) (x y : ℕ) : ℂ :=
  (1 / ((m : ℂ) * (n : ℂ))) * ∑ u ∈ Finset.range m, ∑ v ∈ Finset.range n,
    F u v * Complex.exp ((2 * (Real.pi : ℂ) * Complex.I) *
      ((u : ℂ) * (x : ℂ) / (m : ℂ) + (v : ℂ) * (y : ℂ) / (n : ℂ)))

/-- numpy `np.roll` index map along one axis of length `m`:
`roll(x, s)[k] = x[(k - s) mod m]`. -/
def rollIdx (m : ℕ) (s : ℤ) (k : ℕ) : ℕ := (((k : ℤ) - s) % (m : ℤ)).toNat

/-- `np.fft.fftshift` on an `m × n` spectrum: roll by `m / 2` (resp. `n / 2`)
along each axis. -/
def fftshift2 (m n : ℕ) (F : ℕ → ℕ → ℂ) : ℕ → ℕ → ℂ :=
  fun u v => F (rollIdx m ((m : ℤ) / 2) u) (rollIdx n ((n : ℤ) / 2) v)

/-- `np.fft.ifftshift` on an `m × n` spectrum: roll by `-(m / 2)`
(resp. `-(n / 2)`) along each axis; inverse of `fftshift2`. -/
def ifftshift2 (m n : ℕ) (F : ℕ → ℕ → ℂ) : ℕ → ℕ → ℂ :=
  fun u v => F (rollIdx m (-((m : ℤ) / 2)) u) (rollIdx n (-((n : ℤ) / 2)) v)

/-- A phase (or uniform-draw) array, as a function of the frequency index. -/
abbrev Phase := ℕ → ℕ → ℝ

/-- The complex reconstruction computed inside `scramble_2d` (lines 12–24 of
`prepare.py`): zero-fill, `fft2`, magnitude of the shifted spectrum, new phase
(the supplied one, or `2π·rand(u,v)` when none is supplied), then
`ifft2(ifftshift(F_mag · exp(i·phase)))`. -/
noncomputable def scrambleRecon (img : Grid) (phase : Option Phase) (rand : Phase) :
    ℕ → ℕ → ℂ :=
  let m := img.length
  let n := (img.getD 0 []).length
  let F := dft2 m n (zfill img)
  let Fmag : ℕ → ℕ → ℝ := fun u v => Complex.abs (fftshift2 m n F u v)
  let FnewPhase : Phase :=
    match phase with
    | some p => p
    | none => fun u v => 2 * Real.pi * rand u v
  let Fnew : ℕ → ℕ → ℂ :=
    fun u v => (Fmag u v : ℝ) * Complex.exp (Complex.I * (FnewPhase u v : ℝ))
  idft2 m n (ifftshift2 m n Fnew)

/-- `scramble_2d(img, phase)`: the real part of the reconstruction, with the
missing-value mask of the input restored (`fnew[nan_inds] = np.NaN`).
`rand` is the oracle standing for `np.random.rand`, consulted only when no
phase is supplied. -/
noncomputable def scramble_2d (img : Grid) (phase : Option Phase) (rand : Phase) : Grid :=
  (List.range img.length).map fun i =>
    (List.range (img.getD 0 []).length).map fun j =>
      match cellAt img i j with
      | none => none
      | some _ => some (scrambleRecon img phase rand i j).re

/-- `scramble_3d(data)`: `scramble_2d` applied independently to each time
slice, with a fresh random draw (oracle `rand t`) per slice and no supplied
phase. -/
noncomputable def scramble_3d (data : Cube) (rand : ℕ → Phase) : Cube :=
  data.enum.map fun p => scramble_2d p.2 none (rand p.1)

/-- Modelled from the spec: `smooth` delegates to `astropy.convolution`
(`Gaussian2DKernel` + `convolve`), which is not part of this repository.
Per spec §4.2 and the §3 invariant, it is embedded as a NaN-aware Gaussian
convolution: a missing cell stays missing, a valid cell becomes the
Gaussian-weighted average of the valid cells, the weights renormalised over
the valid cells only (missing cells do not contaminate neighbours). -/
noncomputable def smooth (g : Grid) (stddev : ℚ) : Grid :=
  let m := g.length
  let n := (g.getD 0 []).length
  let w : ℕ → ℕ → ℕ → ℕ → ℝ := fun i j a b =>
    Real.exp (-((((i : ℝ) - (a : ℝ)) ^ 2 + ((j : ℝ) - (b : ℝ)) ^ 2) /
      (2 * ((stddev : ℝ)) ^ 2)))
  (List.range m).map fun i =>
    (List.range n).map fun j =>
      match cellAt g i j with
      | none => none
      | some _ =>
        some ((∑ a ∈ Finset.range m, ∑ b ∈ Finset.range n,
                 ((cellAt g a b).getD 0) * (if (cellAt g a b).isSome then w i j a b else 0)) /
              (∑ a ∈ Finset.range m, ∑ b ∈ Finset.range n,
                 (if (cellAt g a b).isSome then w i j a b else 0)))

/-- The concrete all-valid 1 × 1 field used in counterexamples/witnesses. -/
def imgOne : Grid := [[some 1]]

/-- The zero oracle / zero phase. -/
def rand0 : Phase := fun _ _ => 0

/-- The constant π/2 phase. -/
noncomputable def phaseHalfPi : Phase := fun _ _ => Real.pi / 2

/-- The concrete all-missing 2 × 2 field. -/
def gridNaN : Grid := [[none, none], [none, none]]

/-- The concrete mixed 1 × 2 field (one valid cell, one missing). -/
def gridMixed : Grid := [[some 1, none]]

/-- A time coordinate label: (year, month). -/
abbrev TimeLabel := ℤ × ℤ

/-- Lexicographic comparison of time labels. -/
def timeLe (a b : TimeLabel) : Bool :=
  decide (a.1 < b.1) || (decide (a.1 = b.1) && decide (a.2 ≤ b.2))

/-- Membership of a label in the closed label-slice `[lo, hi]` supplied as
`rolling_period`. -/
def inPeriod (lo hi t : TimeLabel) : Bool := timeLe lo t && timeLe t hi

/-- An xarray `Dataset` of named climate variables on a shared (T, Y, X)
grid: time labels, spatial extents (`len(climate.y)`, `len(climate.x)`), and
the data variables in order. -/
structure Climate where
  times : List TimeLabel
  ny : ℕ
  nx : ℕ
  vars : List (String × Cube)

/-- `da.sel(time=rolling_period)` on one (T, Y, X) variable: keep the slices
whose time label lies in the period. -/
def selCube (times : List TimeLabel) (cu : Cube) (lo hi : TimeLabel) : Cube :=
  ((times.zip cu).filter fun q => inPeriod lo hi q.1).map fun q => q.2

/-- `climate.sel(time=rolling_period)` on the whole dataset. -/
def selClimate (c : Climate) (lo hi : TimeLabel) : Climate :=
  { times := c.times.filter (inPeriod lo hi)
    ny := c.ny
    nx := c.nx
    vars := c.vars.map fun p => (p.1, selCube c.times p.2 lo hi) }

/-- The climate `fire` works on: the full dataset, or its `rolling_period`
selection (`fire` lines 66–70). -/
def climOf (full : Climate) (rp : Option (TimeLabel × TimeLabel)) : Climate :=
  match rp with
  | some (lo, hi) => selClimate full lo hi
  | none => full

/-- `climate[name]`: the first data variable called `name` (empty if absent). -/
def getVar (c : Climate) (name : String) : Cube :=
  ((c.vars.filter fun p => p.1 == name).headD (name, [])).2

/-- `.values.flatten()` of a (Y, X) grid, row-major. -/
def flat2 (g : Grid) : List (Option ℝ) := g.flatten

/-- `.values.flatten()` of a (T, Y, X) cube, (t, y, x) row-major. -/
def flat3 (cu : Cube) : List (Option ℝ) := (cu.map flat2).flatten

/-- `np.tile(a, [T, 1, 1]).flatten()` for a 2-D array `a`. -/
def tileFlat (T : ℕ) (g : Grid) : List (Option ℝ) :=
  (List.replicate T (flat2 g)).flatten

/-- xarray reduction over optional values with its default `skipna=True`:
missing values are dropped; an all-missing reduction is missing. -/
def reduceSome (op : ℝ → ℝ → ℝ) (l : List (Option ℝ)) : Option ℝ :=
  match l.filterMap id with
  | [] => none
  | v :: vs => some (vs.foldl op v)

/-- Cell-wise reduction over the time axis of a list of (ny × nx) grids. -/
def cellwise (op : ℝ → ℝ → ℝ) (ny nx : ℕ) (gs : List Grid) : Grid :=
  (List.range ny).map fun i => (List.range nx).map fun j =>
    reduceSome op (gs.map fun g => cellAt g i j)

/-- The sorted distinct years of a time axis (xarray `groupby('time.year')`
sorts its group keys). -/
def yearsOf (times : List TimeLabel) : List ℤ :=
  List.insertionSort (· ≤ ·) ((times.map Prod.fst).dedup)

/-- The slices of a variable belonging to calendar year `yr`. -/
def yearSlices (times : List TimeLabel) (cu : Cube) (yr : ℤ) : List Grid :=
  ((times.zip cu).filter fun q => q.1.1 == yr).map fun q => q.2

/-- `da.groupby('time.year').max()` / `.sum()`: one cell-wise aggregate grid
per distinct year, in sorted year order. -/
def groupbyAgg (op : ℝ → ℝ → ℝ) (ny nx : ℕ) (times : List TimeLabel)
    (cu : Cube) : List Grid :=
  (yearsOf times).map fun yr => cellwise op ny nx (yearSlices times cu yr)

/-- `a.mean()` over a whole grid (skipna). -/
noncomputable def gridMean (g : Grid) : Option ℝ :=
  match g.flatten.filterMap id with
  | [] => none
  | v :: vs => some ((vs.foldl (fun a b => a + b) v) / ((vs.length : ℝ) + 1))

/-- An all-missing ny × nx grid. -/
def noneGrid (ny nx : ℕ) : Grid :=
  (List.range ny).map fun _ => (List.range nx).map fun _ => none

/-- `da.rolling(dim={'time': 12}, min_periods=12, center=False).max()` /
`.sum()`: entry `t` aggregates the trailing window `[t-11, t]` cell-wise
(skipna); windows shorter than 12 give an all-missing slice.  (`min_periods`
actually counts valid entries per cell; the difference does not affect the
shape and ordering facts proved here.) -/
def rollingAgg (op : ℝ → ℝ → ℝ) (ny nx : ℕ) (cu : Cube) : Cube :=
  (List.range cu.length).map fun t =>
    if t + 1 < 12 then noneGrid ny nx
    else cellwise op ny nx ((cu.drop (t + 1 - 12)).take 12)

/-- One global-trend column in groupby mode (`fire` lines 115–130): for each
yearly aggregate grid `a`, `np.tile(a.mean(), [12, ny, nx])`, all flattened. -/
noncomputable def f2colGroupby (op : ℝ → ℝ → ℝ) (c : Climate) (name : String) :
    List (Option ℝ) :=
  ((groupbyAgg op c.ny c.nx c.times (getVar c name)).map fun a =>
    List.replicate (12 * (c.ny * c.nx)) (gridMean a)).flatten

/-- One global-trend column in rolling mode (`fire` lines 87–110): rolling
aggregate, re-selection of the rolling period, spatial mean per time step,
each scalar tiled to (ny, nx) (`np.tile(a, [shape[1], shape[2]])`), all
flattened. -/
noncomputable def f2colRolling (op : ℝ → ℝ → ℝ) (c : Climate) (name : String)
    (lo hi : TimeLabel) : List (Option ℝ) :=
  (((selCube c.times (rollingAgg op c.ny c.nx (getVar c name)) lo hi).map
    gridMean).map fun sc => List.replicate (c.ny * c.nx) sc).flatten

/-- The global-trend block `f2`: yearly/rolling max of `tmean` and
yearly/rolling sum of `ppt`. -/
noncomputable def f2Block (c : Climate) (rp : Option (TimeLabel × TimeLabel)) :
    List (List (Option ℝ)) :=
  match rp with
  | some (lo, hi) =>
    [f2colRolling (fun a b => max a b) c "tmean" lo hi,
     f2colRolling (fun a b => a + b) c "ppt" lo hi]
  | none =>
    [f2colGroupby (fun a b => max a b) c "tmean",
     f2colGroupby (fun a b => a + b) c "ppt"]

/-- The local-trend block `f3` (`fire` lines 132–188): in rolling mode the
rolling aggregates are flattened at full spatial resolution; in groupby mode
each yearly aggregate is tiled over 12 months, smoothed first exactly when a
kernel size was given (`gaussian_kernel_size is not None`, line 148). -/
noncomputable def f3Block (c : Climate) (rp : Option (TimeLabel × TimeLabel))
    (gks : Option ℚ) : List (List (Option ℝ)) :=
  match rp with
  | some _ =>
    [flat3 (rollingAgg (fun a b => max a b) c.ny c.nx (getVar c "tmean")),
     flat3 (rollingAgg (fun a b => a + b) c.ny c.nx (getVar c "ppt"))]
  | none =>
    match gks with
    | some k =>
      [((groupbyAgg (fun a b => max a b) c.ny c.nx c.times (getVar c "tmean")).map
          fun a => tileFlat 12 (smooth a k)).flatten,
       ((groupbyAgg (fun a b => a + b) c.ny c.nx c.times (getVar c "ppt")).map
          fun a => tileFlat 12 (smooth a k)).flatten]
    | none =>
      [((groupbyAgg (fun a b => max a b) c.ny c.nx c.times (getVar c "tmean")).map
          fun a => tileFlat 12 a).flatten,
       ((groupbyAgg (fun a b => a + b) c.ny c.nx c.times (getVar c "ppt")).map
          fun a => tileFlat 12 a).flatten]

/-- The climate block `x` (`fire` lines 73 / 76): one flattened column per
data variable; when `scramble` is set each cube is scrambled slice-wise first
(fresh random draws per variable and slice, through oracle `randC`). -/
noncomputable def xBlock (c : Climate) (scramble : Bool)
    (randC : ℕ → ℕ → Phase) : List (List (Option ℝ)) :=
  if scramble then
    c.vars.enum.map fun p => flat3 (scramble_3d p.2.2 (randC p.1))
  else
    c.vars.map fun p => flat3 p.2

/-- The land-type block `f` (`fire` lines 74 / 77): each raster (scrambled
once when `scramble` is set) tiled over the `T` time steps and flattened. -/
noncomputable def fBlock (nftd : List Grid) (T : ℕ) (scramble : Bool)
    (randF : ℕ → Phase) : List (List (Option ℝ)) :=
  if scramble then
    nftd.enum.map fun p => tileFlat T (scramble_2d p.2 none (randF p.1))
  else
    nftd.map fun a => tileFlat T a

/-- Python truthiness of the `gaussian_kernel_size` float parameter: `None`
and `0.0` are both falsy (`if gaussian_kernel_size:`, lines 189 and 197). -/
def gksTruthy (gks : Option ℚ) : Bool :=
  match gks with
  | none => false
  | some k => decide (k ≠ 0)

/-- The concatenated design matrix (`fire` lines 189–199), column-major:
`[x, f]` when the kernel size is truthy (the global block `f2` is dropped),
else `[x, f, f2]`; `f3` is appended exactly when local trends were requested
AND the kernel size is truthy. -/
noncomputable def xFinal (c : Climate) (nftd : List Grid)
    (scramble add_local : Bool) (rp : Option (TimeLabel × TimeLabel))
    (gks : Option ℚ) (randC : ℕ → ℕ → Phase) (randF : ℕ → Phase) :
    List (List (Option ℝ)) :=
  let x := xBlock c scramble randC
  let f := fBlock nftd c.times.length scramble randF
  let x1 := if gksTruthy gks then x ++ f else x ++ f ++ f2Block c rp
  if add_local && gksTruthy gks then x1 ++ f3Block c rp gks else x1

/-- The `mtbs` target dataset: time labels and the `monthly` variable. -/
structure Mtbs where
  times : List TimeLabel
  monthly : Cube

/-- What a `fire` call produces: the design matrix alone (eval mode), the
`(x, y, f3)` triple (fit mode), or one of the two run-time errors fit mode
can raise. -/
inductive FireResult where
  | evalX (x : List (List (Option ℝ)))
  | fit (x : List (List (Option ℝ))) (y : List (Option ℝ))
      (f3 : List (List (Option ℝ)))
  | errNoneType
  | errUnboundF3

/-- `fire(full_climate, nftd, mtbs, eval_only, scramble,
add_local_climate_trends, rolling_period, gaussian_kernel_size)`.  In fit
mode `y = mtbs['monthly'].values.flatten()` — the target is NOT subset by
`rolling_period` —; `mtbs['monthly']` with `mtbs=None` raises a `TypeError`
(`errNoneType`), and the `return x, y, f3` line raises an
`UnboundLocalError` (`errUnboundF3`) when `add_local_climate_trends` is
false, because no branch ever assigned `f3`. -/
noncomputable def fire (full_climate : Climate) (nftd : List Grid)
    (mtbs : Option Mtbs) (eval_only scramble add_local_climate_trends : Bool)
    (rolling_period : Option (TimeLabel × TimeLabel))
    (gaussian_kernel_size : Option ℚ)
    (randC : ℕ → ℕ → Phase) (randF : ℕ → Phase) : FireResult :=
  let climate := climOf full_climate rolling_period
  let x := xFinal climate nftd scramble add_local_climate_trends rolling_period
    gaussian_kernel_size randC randF
  if eval_only then .evalX x
  else
    match mtbs with
    | none => .errNoneType
    | some m =>
      if add_local_climate_trends then
        .fit x (flat3 m.monthly)
          (f3Block climate rolling_period gaussian_kernel_size)
      else .errUnboundF3

/-- Well-formedness of a climate dataset: every variable is a rectangular
(T, ny, nx) cube. -/
def ClimateWF (c : Climate) : Prop :=
  ∀ p ∈ c.vars, CubeRect p.2 c.times.length c.ny c.nx

/-- The zero oracles for the `fire` arguments. -/
def randC0 : ℕ → ℕ → Phase := fun _ _ _ _ => 0

def randF0 : ℕ → Phase := fun _ _ _ => 0

/-- A concrete 12-month, 1 × 1, two-variable climate dataset (year 2000). -/
def clim12 : Climate :=
  { times := (List.range 12).map fun k => ((2000 : ℤ), (k : ℤ) + 1)
    ny := 1
    nx := 1
    vars := [("tmean", List.replicate 12 imgOne), ("ppt", List.replicate 12 imgOne)] }

/-- A 13-month, 1 × 1 climate dataset straddling two calendar years. -/
def clim13 : Climate :=
  { times := (List.range 13).map fun k => ((if k < 12 then (2000 : ℤ) else 2001), (k : ℤ))
    ny := 1
    nx := 1
    vars := [("tmean", List.replicate 13 imgOne), ("ppt", List.replicate 13 imgOne)] }

/-- The design-matrix columns of a `fire` result. -/
def FireResult.xcols : FireResult → List (List (Option ℝ))
  | .evalX x => x
  | .fit x _ _ => x
  | _ => []

/-- The target vector of a `fire` result (fit mode only). -/
def FireResult.yvec : FireResult → List (Option ℝ)
  | .fit _ y _ => y
  | _ => []

/-- Row/target alignment, formalised: a design-matrix column and the target
vector have equally many rows, and row `i` of both belongs to the same time
label (rows are (t, y, x) row-major with `ny·nx` rows per time step, so row
`i` belongs to time step `i / (ny·nx)` of the respective time axis).
Together with the per-block indexing laws this makes "row i and element i
correspond to the same (t, y, x) cell" precise. -/
def rowAligned (selTimes mtTimes : List TimeLabel) (nynx : ℕ)
    (xcol y : List (Option ℝ)) : Prop :=
  xcol.length = y.length ∧
    ∀ i, i < y.length → selTimes[i / nynx]? = mtTimes[i / nynx]?

/-- A 2-month, 1 × 1, two-variable climate dataset. -/
def clim2 : Climate :=
  { times := [((2000 : ℤ), (1 : ℤ)), ((2000 : ℤ), (2 : ℤ))]
    ny := 1
    nx := 1
    vars := [("tmean", [imgOne, imgOne]), ("ppt", [imgOne, imgOne])] }

/-- A target dataset on the full 2-month grid of `clim2`. -/
def mtbs2 : Mtbs := { times := clim2.times, monthly := [imgOne, imgOne] }

/-- The rolling period selecting only the first of the two months. -/
def rpFirst : TimeLabel × TimeLabel := (((2000 : ℤ), (1 : ℤ)), ((2000 : ℤ), (1 : ℤ)))

/-- The target dataset matching `clim12`. -/
def mtbs12 : Mtbs := { times := clim12.times, monthly := List.replicate 12 imgOne }

/-- One row of the FIA condition table consumed by `drought` / `insects`.
Numeric columns are `Option ℚ` (`none` models NaN); `age_squared` and
`duration` do not exist until the functions assign them. -/
structure Row where
  lat : ℚ
  lon : ℚ
  type_code : ℚ
  condprop : Option ℚ
  disturb_human_1 : Option Bool
  disturb_fire_1 : Option Bool
  treatment_cutting_1 : Option Bool
  ppt_sum_min : Option ℚ
  tavg_mean_max : Option ℚ
  ppt_sum_min_1 : Option ℚ
  tavg_mean_max_1 : Option ℚ
  age : Option ℚ
  age_squared : Option ℚ := none
  duration : Option ℚ := none
  year_0 : Option ℚ
  year_1 : Option ℚ
  mort_1 : Option ℚ
  balive_0 : Option ℚ
  fraction_insect_1 : Option ℚ

/-- Python `df[col] is True` compares the Series OBJECT with the `True`
singleton by identity; a Series is never that object, so the test is the
constant `False` and each `not (df[col] is True)` screen in the source
(lines 230–235 and 280–285) is the scalar constant `True`.  `&`-ing a scalar
`True` into the row mask leaves the mask unchanged. -/
def notSeriesIsTrue : Bool := true

def osq (a : Option ℚ) : Option ℚ := a.map fun v => v ^ 2

def osub (a b : Option ℚ) : Option ℚ :=
  match a, b with
  | some x, some y => some (x - y)
  | _, _ => none

/-- NaN-propagating division (`mort_1 / balive_0`).  numpy maps a zero
denominator to ±inf / NaN with a warning; that corner is not modelled and no
theorem below divides by zero. -/
def odiv (a b : Option ℚ) : Option ℚ :=
  match a, b with
  | some x, some y => some (x / y)
  | _, _ => none

def omul (a b : Option ℚ) : Option ℚ :=
  match a, b with
  | some x, some y => some (x * y)
  | _, _ => none

/-- `df['condprop'] > 0.3` on an optional value (`NaN > 0.3` is `False`). -/
def qgt (a : Option ℚ) (c : ℚ) : Bool :=
  match a with
  | some v => decide (c < v)
  | none => false

/-- The fit-mode row mask (`drought` lines 230–235 / `insects` 280–285):
`(df['condprop'] > 0.3) & (not (df['disturb_human_1'] is True)) &
(not (df['disturb_fire_1'] is True)) & (not (df['treatment_cutting_1'] is
True))`.  The three disturbance screens are the constant `True` (see
`notSeriesIsTrue`), so the mask reduces to the condprop test alone. -/
def condFilter (r : Row) : Bool :=
  qgt r.condprop (3 / 10) && notSeriesIsTrue && notSeriesIsTrue && notSeriesIsTrue

/-- `df[fit_vars]` row, fit mode. -/
def fitVarsFit (r : Row) : List (Option ℚ) :=
  [r.ppt_sum_min_1, r.tavg_mean_max_1, r.age, r.age_squared, r.duration]

/-- `df[fit_vars]` row, eval mode. -/
def fitVarsEval (r : Row) : List (Option ℚ) :=
  [r.ppt_sum_min, r.tavg_mean_max, r.age, r.age_squared, r.duration]

/-- `df[['lat', 'lon', 'type_code']]` row. -/
def metaOf (r : Row) : ℚ × ℚ × ℚ := (r.lat, r.lon, r.type_code)

/-- The drought target `y = df['mort_1'] / df['balive_0']`. -/
def yDrought (r : Row) : Option ℚ := odiv r.mort_1 r.balive_0

/-- The insects target
`y = df['fraction_insect_1'] * (df['mort_1'] / df['balive_0'])`. -/
def yInsects (r : Row) : Option ℚ :=
  omul r.fraction_insect_1 (odiv r.mort_1 r.balive_0)

/-- The second fit-mode mask (line 242 / 292):
`(np.isnan(x).sum(axis=1) == 0) & (~np.isnan(y)) & (y < 1)`. -/
def keepFit (y : Row → Option ℚ) (r : Row) : Bool :=
  (fitVarsFit r).all Option.isSome && (y r).isSome &&
    (match y r with
     | some v => decide (v < 1)
     | none => false)

/-- `df['age_squared'] = df['age'] ** 2`. -/
def setAgeSquared (df : List Row) : List Row :=
  df.map fun r => { r with age_squared := osq r.age }

/-- `df['duration'] = duration` (eval mode). -/
def setDurationConst (df : List Row) (d : ℚ) : List Row :=
  df.map fun r => { r with duration := some d }

/-- `df['duration'] = df['year_1'] - df['year_0']` (fit mode). -/
def setDurationDiff (df : List Row) : List Row :=
  df.map fun r => { r with duration := osub r.year_1 r.year_0 }

/-- What `drought` / `insects` return: `(x, meta)` in eval mode,
`(x, y, meta)` in fit mode. -/
inductive TabReturn where
  | evalMode (x : List (List (Option ℚ))) (meta : List (ℚ × ℚ × ℚ))
  | fitMode (x : List (List (Option ℚ))) (y : List (Option ℚ))
      (meta : List (ℚ × ℚ × ℚ))

/-- `drought(df, eval_only, duration)` (value level; the `df.copy()` aliasing
discipline is modelled separately by `droughtH`). -/
def drought (df : List Row) (eval_only : Bool) (duration : ℚ) : TabReturn :=
  if eval_only then
    let df1 := setDurationConst (setAgeSquared df) duration
    .evalMode (df1.map fitVarsEval) (df1.map metaOf)
  else
    let df2 := setDurationDiff (setAgeSquared (df.filter condFilter))
    .fitMode ((df2.filter (keepFit yDrought)).map fitVarsFit)
      ((df2.filter (keepFit yDrought)).map yDrought)
      ((df2.filter (keepFit yDrought)).map metaOf)

/-- `insects(df, eval_only, duration)`: as `drought`, with the target scaled
by the insect-attributed fraction. -/
def insects (df : List Row) (eval_only : Bool) (duration : ℚ) : TabReturn :=
  if eval_only then
    let df1 := setDurationConst (setAgeSquared df) duration
    .evalMode (df1.map fitVarsEval) (df1.map metaOf)
  else
    let df2 := setDurationDiff (setAgeSquared (df.filter condFilter))
    .fitMode ((df2.filter (keepFit yInsects)).map fitVarsFit)
      ((df2.filter (keepFit yInsects)).map yInsects)
      ((df2.filter (keepFit yInsects)).map metaOf)

/-- A row with condprop > 0.3 but a recorded human disturbance: per the claim
(and the spec) it must be excluded in fit mode. -/
def rowDisturbed : Row :=
  { lat := 40
    lon := -105
    type_code := 100
    condprop := some (1 / 2)
    disturb_human_1 := some true
    disturb_fire_1 := some false
    treatment_cutting_1 := some false
    ppt_sum_min := some 1
    tavg_mean_max := some 1
    ppt_sum_min_1 := some 1
    tavg_mean_max_1 := some 2
    age := some 10
    year_0 := some 2000
    year_1 := some 2010
    mort_1 := some (1 / 5)
    balive_0 := some 1
    fraction_insect_1 := some (1 / 2) }

/-- Allocate a fresh heap cell holding `v`: the new heap and the new
reference. -/
def hAlloc {α : Type} (h : List α) (v : α) : List α × ℕ := (h ++ [v], h.length)

/-- In-place `img[nan_inds] = 0`: NaN cells of the SAME array become 0. -/
def zeroFillGrid (g : Grid) : Grid :=
  g.map fun row => row.map fun cell => some (cell.getD 0)

/-- `scramble_2d` as explicit heap operations, one per mutating statement of
the source: `img = img.copy()` allocates the copy, `img[nan_inds] = 0`
writes the copy, the FFT / phase-replacement / inverse-FFT chain is pure and
its `np.real(...)` result is a fresh array (allocated), and
`fnew[nan_inds] = np.NaN` writes that fresh array.  (The pure spectral chain
reads the zero-filled copy; its values are `scrambleRecon` of the original,
since `zfill` already reads missing cells as 0.)  The caller's cell `r` is
never written. -/
noncomputable def scramble_2dH (h : List Grid) (r : ℕ) (phase : Option Phase)
    (rand : Phase) : List Grid × ℕ :=
  let img0 := h.getD r []
  let p1 := hAlloc h img0
  let h1 := p1.1
  let rc := p1.2
  let nanMask : ℕ → ℕ → Bool := fun i j => (cellAt (h1.getD rc []) i j).isNone
  let h2 := h1.set rc (zeroFillGrid (h1.getD rc []))
  let reconGrid : Grid := (List.range img0.length).map fun i =>
    (List.range (img0.getD 0 []).length).map fun j =>
      some (scrambleRecon img0 phase rand i j).re
  let p2 := hAlloc h2 reconGrid
  let h3 := p2.1
  let rf := p2.2
  let h4 := h3.set rf ((List.range img0.length).map fun i =>
    (List.range (img0.getD 0 []).length).map fun j =>
      if nanMask i j then none else cellAt (h3.getD rf []) i j)
  (h4, rf)

/-- `scramble_3d` as heap operations: `data = data.copy()` allocates; each
loop iteration's only heap write is the slice assignment
`data[t] = scramble_2d(data[t])` into the copy (`scramble_2d` itself mutates
only its own fresh copy — `C10` first conjunct). -/
noncomputable def scramble_3dH (h : List Cube) (r : ℕ) (rand : ℕ → Phase) :
    List Cube × ℕ :=
  let d0 := h.getD r []
  let p1 := hAlloc h d0
  let h1 := p1.1
  let rc := p1.2
  let h2 := (List.range d0.length).foldl (fun acc t =>
    acc.set rc ((acc.getD rc []).set t
      (scramble_2d ((acc.getD rc []).getD t []) none (rand t)))) h1
  (h2, rc)

/-- `drought` as heap operations: `df = df.copy()` allocates; eval mode
writes the two derived columns into that copy; fit mode computes the mask
(pure reads), allocates the second copy `df = df[inds].copy()`, and writes
the derived columns into the second copy only. -/
def droughtH (h : List (List Row)) (r : ℕ) (eval_only : Bool) (duration : ℚ) :
    List (List Row) × TabReturn :=
  let p1 := hAlloc h (h.getD r [])
  let h1 := p1.1
  let rc := p1.2
  if eval_only then
    let h2 := h1.set rc (setAgeSquared (h1.getD rc []))
    let h3 := h2.set rc (setDurationConst (h2.getD rc []) duration)
    let df := h3.getD rc []
    (h3, .evalMode (df.map fitVarsEval) (df.map metaOf))
  else
    let p2 := hAlloc h1 ((h1.getD rc []).filter condFilter)
    let h2 := p2.1
    let rc2 := p2.2
    let h3 := h2.set rc2 (setAgeSquared (h2.getD rc2 []))
    let h4 := h3.set rc2 (setDurationDiff (h3.getD rc2 []))
    let df := h4.getD rc2 []
    (h4, .fitMode ((df.filter (keepFit yDrought)).map fitVarsFit)
      ((df.filter (keepFit yDrought)).map yDrought)
      ((df.filter (keepFit yDrought)).map metaOf))

/-- `insects` as heap operations (same mutation pattern as `droughtH`). -/
def insectsH (h : List (List Row)) (r : ℕ) (eval_only : Bool) (duration : ℚ) :
    List (List Row) × TabReturn :=
  let p1 := hAlloc h (h.getD r [])
  let h1 := p1.1
  let rc := p1.2
  if eval_only then
    let h2 := h1.set rc (setAgeSquared (h1.getD rc []))
    let h3 := h2.set rc (setDurationConst (h2.getD rc []) duration)
    let df := h3.getD rc []
    (h3, .evalMode (df.map fitVarsEval) (df.map metaOf))
  else
    let p2 := hAlloc h1 ((h1.getD rc []).filter condFilter)
    let h2 := p2.1
    let rc2 := p2.2
    let h3 := h2.set rc2 (setAgeSquared (h2.getD rc2 []))
    let h4 := h3.set rc2 (setDurationDiff (h3.getD rc2 []))
    let df := h4.getD rc2 []
    (h4, .fitMode ((df.filter (keepFit yInsects)).map fitVarsFit)
      ((df.filter (keepFit yInsects)).map yInsects)
      ((df.filter (keepFit yInsects)).map metaOf))

/-! ## Lemmas and theorems -/

/-- Geometric-sum orthogonality of the complex exponentials: summing
`exp(2πi·kx/m)` over `x < m` gives `m` when `m ∣ k` and `0` otherwise. -/
lemma sum_exp_orth (m : ℕ) (hm : 0 < m) (k : ℤ) :
    ∑ x ∈ Finset.range m,
      Complex.exp ((2 * (Real.pi : ℂ) * Complex.I) * ((k : ℂ) * (x : ℂ) / (m : ℂ))) =
      if (m : ℤ) ∣ k then (m : ℂ) else 0 := by
  have hmC : (m : ℂ) ≠ 0 := Nat.cast_ne_zero.mpr hm.ne'
  have hterm : ∀ x ∈ Finset.range m,
      Complex.exp ((2 * (Real.pi : ℂ) * Complex.I) * ((k : ℂ) * (x : ℂ) / (m : ℂ))) =
        Complex.exp ((2 * (Real.pi : ℂ) * Complex.I) * ((k : ℂ) / (m : ℂ))) ^ x := by
    intro x _
    rw [← Complex.exp_nat_mul]
    congr 1
    ring
  rw [Finset.sum_congr rfl hterm]
  by_cases hdvd : (m : ℤ) ∣ k
  · obtain ⟨t, ht⟩ := hdvd
    have hz : Complex.exp ((2 * (Real.pi : ℂ) * Complex.I) * ((k : ℂ) / (m : ℂ))) = 1 := by
      have hk : (k : ℂ) = (m : ℂ) * (t : ℂ) := by exact_mod_cast congrArg (Int.cast : ℤ → ℂ) ht
      have harg : (2 * (Real.pi : ℂ) * Complex.I) * ((k : ℂ) / (m : ℂ)) =
          (t : ℂ) * (2 * (Real.pi : ℂ) * Complex.I) := by
        rw [hk]; field_simp; ring
      rw [harg]
      exact Complex.exp_int_mul_two_pi_mul_I t
    rw [if_pos ⟨t, ht⟩]
    simp [hz]
  · have hz : Complex.exp ((2 * (Real.pi : ℂ) * Complex.I) * ((k : ℂ) / (m : ℂ))) ≠ 1 := by
      intro h
      obtain ⟨t, ht⟩ := Complex.exp_eq_one_iff.mp h
      apply hdvd
      have h2 : (2 * (Real.pi : ℂ) * Complex.I) ≠ 0 :=
        mul_ne_zero (mul_ne_zero two_ne_zero (Complex.ofReal_ne_zero.mpr Real.pi_ne_zero))
          Complex.I_ne_zero
      have hq : (k : ℂ) / (m : ℂ) = (t : ℂ) := by
        have := ht
        rw [mul_comm] at this
        exact mul_right_cancel₀ h2 this
      have hk : (k : ℂ) = (t : ℂ) * (m : ℂ) := by
        field_simp at hq
        linear_combination hq
      have hkZ : k = t * m := by exact_mod_cast hk
      exact ⟨t, by linarith [hkZ]⟩
    rw [geom_sum_eq hz]
    have hzm : Complex.exp ((2 * (Real.pi : ℂ) * Complex.I) * ((k : ℂ) / (m : ℂ))) ^ m = 1 := by
      rw [← Complex.exp_nat_mul]
      have harg : (m : ℂ) * ((2 * (Real.pi : ℂ) * Complex.I) * ((k : ℂ) / (m : ℂ))) =
          (k : ℂ) * (2 * (Real.pi : ℂ) * Complex.I) := by
        field_simp; ring
      rw [harg]
      exact Complex.exp_int_mul_two_pi_mul_I k
    rw [hzm, if_neg hdvd]
    simp

/-- Orthogonality specialised to two indices below `m`: the sum collapses to a
Kronecker delta. -/
lemma sum_exp_delta (m : ℕ) (hm : 0 < m) (a u : ℕ) (ha : a < m) (hu : u < m) :
    ∑ x ∈ Finset.range m,
      Complex.exp ((2 * (Real.pi : ℂ) * Complex.I) *
        (((a : ℂ) - (u : ℂ)) * (x : ℂ) / (m : ℂ))) =
      if a = u then (m : ℂ) else 0 := by
  have horth := sum_exp_orth m hm ((a : ℤ) - (u : ℤ))
  have hcast : (((a : ℤ) - (u : ℤ) : ℤ) : ℂ) = (a : ℂ) - (u : ℂ) := by push_cast; ring
  rw [hcast] at horth
  rw [horth]
  have hiff : ((m : ℤ) ∣ ((a : ℤ) - (u : ℤ))) ↔ a = u := by
    constructor
    · rintro ⟨c, hc⟩
      have hmZ : (0 : ℤ) < m := by exact_mod_cast hm
      have haZ : (a : ℤ) < m := by exact_mod_cast ha
      have huZ : (u : ℤ) < m := by exact_mod_cast hu
      have ha0 : (0 : ℤ) ≤ a := Int.natCast_nonneg a
      have hu0 : (0 : ℤ) ≤ u := Int.natCast_nonneg u
      have hc0 : c = 0 := by
        rcases lt_trichotomy c 0 with h | h | h
        · exfalso
          have hcle : c ≤ -1 := by omega
          nlinarith
        · exact h
        · exfalso
          have hcge : 1 ≤ c := by omega
          nlinarith
      have : (a : ℤ) = u := by
        rw [hc0, mul_zero] at hc
        omega
      exact_mod_cast this
    · rintro rfl
      simp
  by_cases h : a = u
  · rw [if_pos (hiff.mpr h), if_pos h]
  · rw [if_neg (fun hd => h (hiff.mp hd)), if_neg h]

/-- Swapping a quadruple `range` sum into (a, b)-major order. -/
lemma sum4_swap (m n : ℕ) (f : ℕ → ℕ → ℕ → ℕ → ℂ) :
    ∑ x ∈ Finset.range m, ∑ y ∈ Finset.range n,
      ∑ a ∈ Finset.range m, ∑ b ∈ Finset.range n, f x y a b =
    ∑ a ∈ Finset.range m, ∑ b ∈ Finset.range n,
      ∑ x ∈ Finset.range m, ∑ y ∈ Finset.range n, f x y a b := by
  calc
    ∑ x ∈ Finset.range m, ∑ y ∈ Finset.range n,
        ∑ a ∈ Finset.range m, ∑ b ∈ Finset.range n, f x y a b =
        ∑ x ∈ Finset.range m, ∑ a ∈ Finset.range m,
          ∑ y ∈ Finset.range n, ∑ b ∈ Finset.range n, f x y a b :=
      Finset.sum_congr rfl fun x _ => Finset.sum_comm
    _ = ∑ a ∈ Finset.range m, ∑ x ∈ Finset.range m,
          ∑ y ∈ Finset.range n, ∑ b ∈ Finset.range n, f x y a b :=
      Finset.sum_comm
    _ = ∑ a ∈ Finset.range m, ∑ x ∈ Finset.range m,
          ∑ b ∈ Finset.range n, ∑ y ∈ Finset.range n, f x y a b :=
      Finset.sum_congr rfl fun a _ => Finset.sum_congr rfl fun x _ => Finset.sum_comm
    _ = ∑ a ∈ Finset.range m, ∑ b ∈ Finset.range n,
          ∑ x ∈ Finset.range m, ∑ y ∈ Finset.range n, f x y a b :=
      Finset.sum_congr rfl fun a _ => Finset.sum_comm

/-- Fourier inversion for the finite 2-D transform: `fft2 ∘ ifft2 = id` on an
`m × n` spectrum, at in-range frequencies. -/
lemma dft2_idft2 (m n : ℕ) (hm : 0 < m) (hn : 0 < n) (G : ℕ → ℕ → ℂ)
    (u v : ℕ) (hu : u < m) (hv : v < n) :
    dft2 m n (idft2 m n G) u v = G u v := by
  have hmC : (m : ℂ) ≠ 0 := Nat.cast_ne_zero.mpr hm.ne'
  have hnC : (n : ℂ) ≠ 0 := Nat.cast_ne_zero.mpr hn.ne'
  have key : ∀ x ∈ Finset.range m, ∀ y ∈ Finset.range n,
      idft2 m n G x y * Complex.exp (-(2 * (Real.pi : ℂ) * Complex.I) *
        ((u : ℂ) * (x : ℂ) / (m : ℂ) + (v : ℂ) * (y : ℂ) / (n : ℂ))) =
      (1 / ((m : ℂ) * (n : ℂ))) * ∑ a ∈ Finset.range m, ∑ b ∈ Finset.range n,
        G a b * (Complex.exp ((2 * (Real.pi : ℂ) * Complex.I) *
          (((a : ℂ) - (u : ℂ)) * (x : ℂ) / (m : ℂ))) *
          Complex.exp ((2 * (Real.pi : ℂ) * Complex.I) *
          (((b : ℂ) - (v : ℂ)) * (y : ℂ) / (n : ℂ)))) := by
    intro x _ y _
    unfold idft2
    rw [mul_assoc]
    congr 1
    rw [Finset.sum_mul]
    refine Finset.sum_congr rfl fun a _ => ?_
    rw [Finset.sum_mul]
    refine Finset.sum_congr rfl fun b _ => ?_
    rw [mul_assoc]
    congr 1
    rw [← Complex.exp_add, ← Complex.exp_add]
    congr 1
    field_simp
    ring
  unfold dft2
  rw [Finset.sum_congr rfl fun x hx => Finset.sum_congr rfl fun y hy => key x hx y hy]
  rw [Finset.sum_congr rfl fun x (_ : x ∈ Finset.range m) =>
    (Finset.mul_sum (Finset.range n) _ (1 / ((m : ℂ) * (n : ℂ)))).symm]
  rw [← Finset.mul_sum]
  rw [sum4_swap]
  have collapse : ∀ a ∈ Finset.range m, ∀ b ∈ Finset.range n,
      ∑ x ∈ Finset.range m, ∑ y ∈ Finset.range n,
        G a b * (Complex.exp ((2 * (Real.pi : ℂ) * Complex.I) *
          (((a : ℂ) - (u : ℂ)) * (x : ℂ) / (m : ℂ))) *
          Complex.exp ((2 * (Real.pi : ℂ) * Complex.I) *
          (((b : ℂ) - (v : ℂ)) * (y : ℂ) / (n : ℂ)))) =
      G a b * ((if a = u then (m : ℂ) else 0) * (if b = v then (n : ℂ) else 0)) := by
    intro a ha b hb
    have hstep : ∀ x ∈ Finset.range m,
        ∑ y ∈ Finset.range n,
          G a b * (Complex.exp ((2 * (Real.pi : ℂ) * Complex.I) *
            (((a : ℂ) - (u : ℂ)) * (x : ℂ) / (m : ℂ))) *
            Complex.exp ((2 * (Real.pi : ℂ) * Complex.I) *
            (((b : ℂ) - (v : ℂ)) * (y : ℂ) / (n : ℂ)))) =
        (G a b * Complex.exp ((2 * (Real.pi : ℂ) * Complex.I) *
            (((a : ℂ) - (u : ℂ)) * (x : ℂ) / (m : ℂ)))) *
          ∑ y ∈ Finset.range n, Complex.exp ((2 * (Real.pi : ℂ) * Complex.I) *
            (((b : ℂ) - (v : ℂ)) * (y : ℂ) / (n : ℂ))) := by
      intro x _
      rw [Finset.mul_sum]
      refine Finset.sum_congr rfl fun y _ => ?_
      ring
    rw [Finset.sum_congr rfl hstep, ← Finset.sum_mul,
      sum_exp_delta n hn b v (Finset.mem_range.mp hb) hv, ← Finset.mul_sum,
      sum_exp_delta m hm a u (Finset.mem_range.mp ha) hu]
    ring
  rw [Finset.sum_congr rfl fun a ha => Finset.sum_congr rfl fun b hb => collapse a ha b hb]
  have hfin : ∑ a ∈ Finset.range m, ∑ b ∈ Finset.range n,
      G a b * ((if a = u then (m : ℂ) else 0) * (if b = v then (n : ℂ) else 0)) =
      G u v * ((m : ℂ) * (n : ℂ)) := by
    rw [Finset.sum_eq_single_of_mem u (Finset.mem_range.mpr hu)]
    · rw [Finset.sum_eq_single_of_mem v (Finset.mem_range.mpr hv)]
      · rw [if_pos rfl, if_pos rfl]
      · intro b _ hbv
        rw [if_neg hbv]
        ring
    · intro a _ hau
      rw [if_neg hau]
      refine Finset.sum_eq_zero fun b _ => ?_
      ring
  rw [hfin]
  field_simp

/-- `rollIdx` always lands inside the axis. -/
lemma rollIdx_lt (m : ℕ) (hm : 0 < m) (s : ℤ) (k : ℕ) : rollIdx m s k < m := by
  unfold rollIdx
  have hmZ : (0 : ℤ) < m := by exact_mod_cast hm
  have h1 : ((k : ℤ) - s) % m < m := Int.emod_lt_of_pos _ hmZ
  have h2 : 0 ≤ ((k : ℤ) - s) % m := Int.emod_nonneg _ hmZ.ne'
  omega

/-- Rolling by `-s` and then by `s` is the identity on in-range indices:
index-level form of `fftshift ∘ ifftshift = id`. -/
lemma rollIdx_left_inv (m : ℕ) (hm : 0 < m) (s : ℤ) (k : ℕ) (hk : k < m) :
    rollIdx m s (rollIdx m (-s) k) = k := by
  unfold rollIdx
  have hmZ : (0 : ℤ) < m := by exact_mod_cast hm
  have h2 : 0 ≤ ((k : ℤ) - -s) % m := Int.emod_nonneg _ hmZ.ne'
  rw [Int.toNat_of_nonneg h2]
  have key : (((k : ℤ) - -s) % m - s) % m = (k : ℤ) := by
    rw [Int.sub_emod, Int.emod_emod_of_dvd _ dvd_rfl, ← Int.sub_emod]
    have harg : (k : ℤ) - -s - s = (k : ℤ) := by ring
    rw [harg]
    exact Int.emod_eq_of_lt (by exact_mod_cast Nat.zero_le k) (by exact_mod_cast hk)
  rw [key]
  omega

/-- Reading an in-range entry of a `range`-built list. -/
lemma range_map_getD {α : Type} (m : ℕ) (f : ℕ → α) (i : ℕ) (d : α) (h : i < m) :
    (((List.range m).map f).getD i d) = f i := by
  rw [List.getD_eq_getElem?_getD, List.getElem?_map, List.getElem?_range h]
  rfl

/-- Reading an out-of-range entry of a `range`-built list gives the default. -/
lemma range_map_getD_oob {α : Type} (m : ℕ) (f : ℕ → α) (i : ℕ) (d : α) (h : ¬ i < m) :
    (((List.range m).map f).getD i d) = d := by
  rw [List.getD_eq_getElem?_getD, List.getElem?_map,
    List.getElem?_eq_none (by simpa [List.length_range] using Nat.le_of_not_lt h)]
  rfl

/-- Cell-level description of `scramble_2d` inside the output rectangle. -/
lemma scramble_2d_cellAt (img : Grid) (phase : Option Phase) (rand : Phase)
    (i j : ℕ) (hi : i < img.length) (hj : j < (img.getD 0 []).length) :
    cellAt (scramble_2d img phase rand) i j =
      match cellAt img i j with
      | none => none
      | some _ => some (scrambleRecon img phase rand i j).re := by
  unfold scramble_2d cellAt
  rw [range_map_getD _ _ _ _ hi, range_map_getD _ _ _ _ hj]

/-- Outside its rectangle, `scramble_2d` reads as missing. -/
lemma scramble_2d_cellAt_oob (img : Grid) (phase : Option Phase) (rand : Phase)
    (i j : ℕ) (h : ¬ (i < img.length ∧ j < (img.getD 0 []).length)) :
    cellAt (scramble_2d img phase rand) i j = none := by
  unfold scramble_2d cellAt
  by_cases hi : i < img.length
  · have hj : ¬ j < (img.getD 0 []).length := fun hj => h ⟨hi, hj⟩
    rw [range_map_getD _ _ _ _ hi, range_map_getD_oob _ _ _ _ hj]
  · rw [range_map_getD_oob _ _ _ _ hi]
    simp [List.getD]

/-- `scramble_2d` output is a rectangle with the dimensions of its input. -/
lemma scramble_2d_rect (img : Grid) (p : Option Phase) (r : Phase) :
    GridRect (scramble_2d img p r) img.length (img.getD 0 []).length := by
  constructor
  · simp [scramble_2d]
  · intro row hrow
    simp only [scramble_2d, List.mem_map, List.mem_range] at hrow
    obtain ⟨i, _, rfl⟩ := hrow
    simp

/-- Inside the rectangle, `scramble_2d` preserves the missing-value mask. -/
lemma scramble_2d_mask (img : Grid) (p : Option Phase) (r : Phase) (i j : ℕ)
    (hi : i < img.length) (hj : j < (img.getD 0 []).length) :
    (cellAt (scramble_2d img p r) i j).isNone = (cellAt img i j).isNone := by
  rw [scramble_2d_cellAt img p r i j hi hj]
  cases cellAt img i j <;> rfl

/-- An all-missing input scrambles to an all-missing output. -/
lemma scramble_2d_allNone (img : Grid) (p : Option Phase) (r : Phase)
    (h : ∀ i j, cellAt img i j = none) (i j : ℕ) :
    cellAt (scramble_2d img p r) i j = none := by
  by_cases hin : i < img.length ∧ j < (img.getD 0 []).length
  · rw [scramble_2d_cellAt img p r i j hin.1 hin.2, h i j]
  · exact scramble_2d_cellAt_oob img p r i j hin

/-- Magnitude bookkeeping through phase replacement, the two shifts and the
inverse transform: at in-range frequencies the spectrum of the complex
reconstruction has exactly the magnitudes of the input's spectrum. -/
lemma scramble_spectrum_core (img : Grid) (p : Option Phase) (rand : Phase)
    (hm : 0 < img.length) (hn : 0 < (img.getD 0 []).length) (u v : ℕ)
    (hu : u < img.length) (hv : v < (img.getD 0 []).length) :
    Complex.abs (dft2 img.length (img.getD 0 []).length
        (scrambleRecon img p rand) u v) =
      Complex.abs (dft2 img.length (img.getD 0 []).length (zfill img) u v) := by
  have habs1 : ∀ r : ℝ, Complex.abs (Complex.exp (Complex.I * (r : ℂ))) = 1 := by
    intro r
    rw [mul_comm]
    exact Complex.abs_exp_ofReal_mul_I r
  simp only [scrambleRecon]
  rw [dft2_idft2 _ _ hm hn _ u v hu hv]
  simp only [ifftshift2, fftshift2]
  rw [rollIdx_left_inv _ hm _ u hu, rollIdx_left_inv _ hn _ v hv]
  rw [map_mul, Complex.abs_ofReal, habs1, mul_one,
    abs_of_nonneg (Complex.abs.nonneg _)]

/-- Inside the rectangle, `smooth` preserves the missing-value mask. -/
lemma smooth_mask (g : Grid) (sd : ℚ) (i j : ℕ) (hi : i < g.length)
    (hj : j < (g.getD 0 []).length) :
    (cellAt (smooth g sd) i j).isNone = (cellAt g i j).isNone := by
  simp only [smooth, cellAt]
  rw [range_map_getD _ _ _ _ hi, range_map_getD _ _ _ _ hj]
  cases (g.getD i []).getD j none <;> rfl

/-- Outside its rectangle, `smooth` reads as missing. -/
lemma smooth_cellAt_oob (g : Grid) (sd : ℚ) (i j : ℕ)
    (h : ¬ (i < g.length ∧ j < (g.getD 0 []).length)) :
    cellAt (smooth g sd) i j = none := by
  simp only [smooth, cellAt]
  by_cases hi : i < g.length
  · have hj : ¬ j < (g.getD 0 []).length := fun hj => h ⟨hi, hj⟩
    rw [range_map_getD _ _ _ _ hi, range_map_getD_oob _ _ _ _ hj]
  · rw [range_map_getD_oob _ _ _ _ hi]
    simp [List.getD]

/-- An all-missing input smooths to an all-missing output. -/
lemma smooth_allNone (g : Grid) (sd : ℚ)
    (h : ∀ i j, cellAt g i j = none) (i j : ℕ) :
    cellAt (smooth g sd) i j = none := by
  by_cases hin : i < g.length ∧ j < (g.getD 0 []).length
  · have hc := h i j
    unfold cellAt at hc
    simp only [smooth, cellAt]
    rw [range_map_getD _ _ _ _ hin.1, range_map_getD _ _ _ _ hin.2, hc]
  · exact smooth_cellAt_oob g sd i j hin

/-- `dft2` congruence on the summed rectangle. -/
lemma dft2_congr (m n : ℕ) (f g : ℕ → ℕ → ℂ) (u v : ℕ)
    (h : ∀ x, x < m → ∀ y, y < n → f x y = g x y) :
    dft2 m n f u v = dft2 m n g u v := by
  unfold dft2
  refine Finset.sum_congr rfl fun x hx => Finset.sum_congr rfl fun y hy => ?_
  rw [h x (Finset.mem_range.mp hx) y (Finset.mem_range.mp hy)]

lemma dft2_one (f : ℕ → ℕ → ℂ) : dft2 1 1 f 0 0 = f 0 0 := by
  simp [dft2]

lemma idft2_one (F : ℕ → ℕ → ℂ) : idft2 1 1 F 0 0 = F 0 0 := by
  simp [idft2]

lemma rollIdx_one (s : ℤ) (k : ℕ) : rollIdx 1 s k = 0 := by
  unfold rollIdx
  simp [Int.emod_one]

lemma zfill_imgOne : zfill imgOne 0 0 = 1 := by
  simp [zfill, imgOne, cellAt, List.getD]

/-- On the 1 × 1 all-valid field, the reconstruction is just the supplied
phase factor. -/
lemma scrambleRecon_imgOne (p : Phase) (r : Phase) :
    scrambleRecon imgOne (some p) r 0 0 = Complex.exp (Complex.I * (p 0 0 : ℝ)) := by
  have hlen : imgOne.length = 1 := rfl
  have hlen0 : (imgOne.getD 0 []).length = 1 := rfl
  simp only [scrambleRecon, hlen, hlen0]
  rw [idft2_one]
  simp only [ifftshift2, fftshift2, rollIdx_one]
  rw [dft2_one, zfill_imgOne]
  simp

/-- The length hypotheses for `imgOne`. -/
lemma imgOne_pos : 0 < imgOne.length ∧ 0 < (imgOne.getD 0 []).length := by
  constructor <;> simp [imgOne]

/-- C2, counterexample: the claim "the FFT magnitude of `scramble_2d(f)`
equals the FFT magnitude of `f` at every frequency (up to missing positions)"
is false at the all-valid 1 × 1 field `[[1]]` with supplied phase π/2: the
output is `[[0]]`, whose spectrum is 0, while the input's spectrum is 1. -/
theorem C2_counterexample :
    ¬ (∀ u, u < imgOne.length → ∀ v, v < (imgOne.getD 0 []).length →
        Complex.abs (dft2 imgOne.length (imgOne.getD 0 []).length
            (zfill (scramble_2d imgOne (some phaseHalfPi) rand0)) u v) =
          Complex.abs (dft2 imgOne.length (imgOne.getD 0 []).length (zfill imgOne) u v)) := by
  intro h
  have h00 := h 0 imgOne_pos.1 0 imgOne_pos.2
  have hlen : imgOne.length = 1 := rfl
  have hlen0 : (imgOne.getD 0 []).length = 1 := rfl
  rw [hlen, hlen0, dft2_one, dft2_one, zfill_imgOne] at h00
  have hcell : cellAt (scramble_2d imgOne (some phaseHalfPi) rand0) 0 0 =
      some (scrambleRecon imgOne (some phaseHalfPi) rand0 0 0).re := by
    rw [scramble_2d_cellAt imgOne _ _ 0 0 imgOne_pos.1 imgOne_pos.2]
    rfl
  have hrecon : (scrambleRecon imgOne (some phaseHalfPi) rand0 0 0).re = 0 := by
    rw [scrambleRecon_imgOne, mul_comm, Complex.exp_mul_I]
    simp [phaseHalfPi]
  have hz : zfill (scramble_2d imgOne (some phaseHalfPi) rand0) 0 0 = 0 := by
    unfold zfill
    rw [hcell]
    simp [hrecon]
  rw [hz] at h00
  simp at h00

/-- C2 (amended): the missing-value mask of the `scramble_2d` output always
matches the input's exactly; and for a field with no missing cells, whenever
the complex reconstruction `ifft2(ifftshift(F_mag·exp(i·phase)))` is purely
real, the FFT magnitude of the output equals the FFT magnitude of the input at
every in-range frequency.  The original unconditional equality is false —
the real-part projection `np.real` can change the spectrum
(`C2_counterexample`). -/
theorem C2_amended :
    (∀ (img : Grid) (p : Option Phase) (r : Phase) (i j : ℕ),
        i < img.length → j < (img.getD 0 []).length →
        (cellAt (scramble_2d img p r) i j).isNone = (cellAt img i j).isNone)
    ∧ (∀ (img : Grid) (p : Phase) (r : Phase),
        0 < img.length → 0 < (img.getD 0 []).length →
        (∀ i, i < img.length → ∀ j, j < (img.getD 0 []).length →
          (cellAt img i j).isSome = true) →
        (∀ a, a < img.length → ∀ b, b < (img.getD 0 []).length →
          (scrambleRecon img (some p) r a b).im = 0) →
        ∀ u, u < img.length → ∀ v, v < (img.getD 0 []).length →
        Complex.abs (dft2 img.length (img.getD 0 []).length
            (zfill (scramble_2d img (some p) r)) u v) =
          Complex.abs (dft2 img.length (img.getD 0 []).length (zfill img) u v)) := by
  constructor
  · exact fun img p r i j hi hj => scramble_2d_mask img p r i j hi hj
  · intro img p r hm hn hsome hreal u hu v hv
    have hz : ∀ x, x < img.length → ∀ y, y < (img.getD 0 []).length →
        zfill (scramble_2d img (some p) r) x y = scrambleRecon img (some p) r x y := by
      intro x hx y hy
      unfold zfill
      rw [scramble_2d_cellAt img _ _ x y hx hy]
      obtain ⟨w, hw⟩ := Option.isSome_iff_exists.mp (hsome x hx y hy)
      rw [hw]
      simp only [Option.getD_some]
      exact Complex.ext (Complex.ofReal_re _)
        (by rw [Complex.ofReal_im, hreal x hx y hy])
    rw [dft2_congr _ _ _ _ u v hz]
    exact scramble_spectrum_core img (some p) r hm hn u v hu hv

/-- Witness for `C2_amended`: the all-valid 1 × 1 field with the zero phase
(whose reconstruction is real). -/
theorem C2_amended_witness :
    ((∀ i, i < imgOne.length → ∀ j, j < (imgOne.getD 0 []).length →
        (cellAt imgOne i j).isSome = true)
      ∧ (∀ a, a < imgOne.length → ∀ b, b < (imgOne.getD 0 []).length →
        (scrambleRecon imgOne (some rand0) rand0 a b).im = 0))
    ∧ Complex.abs (dft2 imgOne.length (imgOne.getD 0 []).length
          (zfill (scramble_2d imgOne (some rand0) rand0)) 0 0) =
        Complex.abs (dft2 imgOne.length (imgOne.getD 0 []).length (zfill imgOne) 0 0) := by
  have h1 : ∀ i, i < imgOne.length → ∀ j, j < (imgOne.getD 0 []).length →
      (cellAt imgOne i j).isSome = true := by
    intro i hi j hj
    obtain rfl : i = 0 := Nat.lt_one_iff.mp hi
    obtain rfl : j = 0 := Nat.lt_one_iff.mp hj
    rfl
  have h2 : ∀ a, a < imgOne.length → ∀ b, b < (imgOne.getD 0 []).length →
      (scrambleRecon imgOne (some rand0) rand0 a b).im = 0 := by
    intro a ha b hb
    obtain rfl : a = 0 := Nat.lt_one_iff.mp ha
    obtain rfl : b = 0 := Nat.lt_one_iff.mp hb
    rw [scrambleRecon_imgOne]
    simp [rand0]
  exact ⟨⟨h1, h2⟩, C2_amended.2 imgOne rand0 rand0 imgOne_pos.1 imgOne_pos.2 h1 h2
    0 imgOne_pos.1 0 imgOne_pos.2⟩

/-- C6: when a phase is supplied, `scramble_2d` never consults the random
oracle — two calls with the same field and phase but arbitrary different
random states are identical. -/
theorem C6_scramble_deterministic (img : Grid) (p : Phase) (r1 r2 : Phase) :
    scramble_2d img (some p) r1 = scramble_2d img (some p) r2 := rfl

/-- C7: an all-missing input propagates through both the spectral transform
(`scramble_2d`) and the smoothing transform (`smooth`) as an all-missing
output; both functions are total, so no error is possible. -/
theorem C7_allNaN_propagates :
    (∀ (img : Grid) (p : Option Phase) (r : Phase),
        (∀ i j, cellAt img i j = none) →
        ∀ i j, cellAt (scramble_2d img p r) i j = none)
    ∧ (∀ (g : Grid) (sd : ℚ),
        (∀ i j, cellAt g i j = none) →
        ∀ i j, cellAt (smooth g sd) i j = none) :=
  ⟨fun img p r h i j => scramble_2d_allNone img p r h i j,
   fun g sd h i j => smooth_allNone g sd h i j⟩

/-- Witness for `C7_allNaN_propagates` at a concrete all-missing 2 × 2 field. -/
theorem C7_allNaN_witness :
    (∀ i j, cellAt gridNaN i j = none)
    ∧ (∀ i j, cellAt (scramble_2d gridNaN none rand0) i j = none)
    ∧ (∀ i j, cellAt (smooth gridNaN 1) i j = none) := by
  have h : ∀ i j, cellAt gridNaN i j = none := by
    intro i j
    unfold cellAt gridNaN
    rcases i with _ | _ | i <;> rcases j with _ | _ | j <;> simp [List.getD]
  exact ⟨h, C7_allNaN_propagates.1 gridNaN none rand0 h,
    C7_allNaN_propagates.2 gridNaN 1 h⟩

/-- C9: both NaN-aware transforms (`smooth`, `scramble_2d`) preserve the
missing-value mask exactly, cell for cell (the `smooth` half is settled
against the spec-modelled astropy convolution). -/
theorem C9_mask_preserved :
    (∀ (img : Grid) (p : Option Phase) (r : Phase) (i j : ℕ),
        i < img.length → j < (img.getD 0 []).length →
        (cellAt (scramble_2d img p r) i j).isNone = (cellAt img i j).isNone)
    ∧ (∀ (g : Grid) (sd : ℚ) (i j : ℕ),
        i < g.length → j < (g.getD 0 []).length →
        (cellAt (smooth g sd) i j).isNone = (cellAt g i j).isNone) :=
  ⟨fun img p r i j hi hj => scramble_2d_mask img p r i j hi hj,
   fun g sd i j hi hj => smooth_mask g sd i j hi hj⟩

/-- Witness for `C9_mask_preserved` at a concrete mixed field. -/
theorem C9_mask_witness :
    (cellAt (scramble_2d gridMixed none rand0) 0 1).isNone =
      (cellAt gridMixed 0 1).isNone
    ∧ (cellAt (smooth gridMixed 1) 0 0).isNone = (cellAt gridMixed 0 0).isNone :=
  ⟨C9_mask_preserved.1 gridMixed none rand0 0 1 (by simp [gridMixed])
      (by simp [gridMixed]),
   C9_mask_preserved.2 gridMixed 1 0 0 (by simp [gridMixed]) (by simp [gridMixed])⟩

/-- The second component of an `enum` entry is a member of the list. -/
lemma snd_mem_of_mem_enum {α : Type} {q : ℕ × α} {l : List α}
    (h : q ∈ l.enum) : q.2 ∈ l :=
  List.get?_mem (List.mem_enum_iff_get?.mp h)

lemma flat2_length (g : Grid) (ny nx : ℕ) (h : GridRect g ny nx) :
    (flat2 g).length = ny * nx := by
  unfold flat2
  rw [List.length_flatten]
  have hrep : g.map List.length = List.replicate ny nx := by
    refine List.eq_replicate.mpr ⟨by simp [h.1], ?_⟩
    intro b hb
    simp only [List.mem_map] at hb
    obtain ⟨r, hr, rfl⟩ := hb
    exact h.2 r hr
  rw [hrep, List.sum_replicate, smul_eq_mul]

lemma flat3_length (cu : Cube) (T ny nx : ℕ) (h : CubeRect cu T ny nx) :
    (flat3 cu).length = T * (ny * nx) := by
  unfold flat3
  rw [List.length_flatten]
  have hrep : (cu.map flat2).map List.length = List.replicate T (ny * nx) := by
    refine List.eq_replicate.mpr ⟨by simp [h.1], ?_⟩
    intro b hb
    simp only [List.map_map, List.mem_map] at hb
    obtain ⟨g, hg, rfl⟩ := hb
    exact flat2_length g ny nx (h.2 g hg)
  rw [hrep, List.sum_replicate, smul_eq_mul]

lemma tileFlat_length (T : ℕ) (g : Grid) (ny nx : ℕ) (h : GridRect g ny nx) :
    (tileFlat T g).length = T * (ny * nx) := by
  unfold tileFlat
  rw [List.length_flatten, List.map_replicate, flat2_length g ny nx h,
    List.sum_replicate, smul_eq_mul]

/-- Indexing a flattening of equal-length chunks. -/
lemma flatten_getElem {α : Type} (l : List (List α)) (L : ℕ)
    (h : ∀ s ∈ l, s.length = L) (a b : ℕ) (hb : b < L) :
    l.flatten[a * L + b]? = (l[a]?).bind fun s => s[b]? := by
  induction l generalizing a with
  | nil => simp
  | cons s rest ih =>
    have hs : s.length = L := h s (List.mem_cons_self s rest)
    cases a with
    | zero =>
      simp only [List.flatten_cons, Nat.zero_mul, Nat.zero_add]
      rw [List.getElem?_append_left (by rw [hs]; exact hb)]
      simp
    | succ a2 =>
      simp only [List.flatten_cons]
      have hle : s.length ≤ (a2 + 1) * L + b := by
        rw [hs, Nat.succ_mul]
        calc L ≤ a2 * L + L := Nat.le_add_left L (a2 * L)
          _ ≤ a2 * L + L + b := Nat.le_add_right _ b
      rw [List.getElem?_append_right hle]
      have hidx : (a2 + 1) * L + b - s.length = a2 * L + b := by
        rw [hs, Nat.succ_mul, Nat.add_right_comm, Nat.add_sub_cancel]
      rw [hidx, ih (fun t ht => h t (List.mem_cons_of_mem s ht)) a2]
      simp

/-- Row-major (y, x) indexing of a flattened rectangular grid. -/
lemma flat2_getElem (g : Grid) (ny nx : ℕ) (h : GridRect g ny nx)
    (i j : ℕ) (hi : i < ny) (hj : j < nx) :
    (flat2 g)[i * nx + j]? = some (cellAt g i j) := by
  have hilen : i < g.length := h.1 ▸ hi
  have hrowmem : g[i] ∈ g := List.getElem_mem hilen
  have hjlen : j < g[i].length := by rw [h.2 _ hrowmem]; exact hj
  have e1 : g.getD i [] = g[i] := by
    rw [List.getD_eq_getElem?_getD, List.getElem?_eq_getElem hilen]
    rfl
  unfold flat2
  rw [flatten_getElem g nx h.2 i j hj, List.getElem?_eq_getElem hilen,
    Option.some_bind, List.getElem?_eq_getElem hjlen]
  congr 1
  unfold cellAt
  rw [e1, List.getD_eq_getElem?_getD, List.getElem?_eq_getElem hjlen]
  rfl

/-- Row-major (t, y, x) indexing of a flattened rectangular cube: element
`t·(ny·nx) + i·nx + j` of the flattened cube is cell (t, i, j). -/
lemma flat3_getElem (cu : Cube) (T ny nx : ℕ) (h : CubeRect cu T ny nx)
    (t i j : ℕ) (ht : t < T) (hi : i < ny) (hj : j < nx) :
    (flat3 cu)[t * (ny * nx) + (i * nx + j)]? = some (cellAt3 cu t i j) := by
  have htlen : t < cu.length := h.1 ▸ ht
  have e1 : cu.getD t [] = cu[t] := by
    rw [List.getD_eq_getElem?_getD, List.getElem?_eq_getElem htlen]
    rfl
  have hb : i * nx + j < ny * nx := by
    calc i * nx + j < i * nx + nx := by omega
      _ = (i + 1) * nx := (Nat.succ_mul i nx).symm
      _ ≤ ny * nx := Nat.mul_le_mul_right nx hi
  unfold flat3
  rw [flatten_getElem (cu.map flat2) (ny * nx) ?hall t (i * nx + j) hb]
  case hall =>
    intro sl hsl
    simp only [List.mem_map] at hsl
    obtain ⟨g, hg, rfl⟩ := hsl
    exact flat2_length g ny nx (h.2 g hg)
  rw [List.getElem?_map, List.getElem?_eq_getElem htlen]
  simp only [Option.map_some', Option.some_bind]
  rw [flat2_getElem cu[t] ny nx (h.2 _ (List.getElem_mem htlen)) i j hi hj]
  unfold cellAt3
  rw [e1]

/-- Row-major (t, y, x) indexing of a tiled raster: every time step reads the
same underlying (y, x) cell. -/
lemma tileFlat_getElem (T : ℕ) (g : Grid) (ny nx : ℕ) (h : GridRect g ny nx)
    (t i j : ℕ) (ht : t < T) (hi : i < ny) (hj : j < nx) :
    (tileFlat T g)[t * (ny * nx) + (i * nx + j)]? = some (cellAt g i j) := by
  have hb : i * nx + j < ny * nx := by
    calc i * nx + j < i * nx + nx := by omega
      _ = (i + 1) * nx := (Nat.succ_mul i nx).symm
      _ ≤ ny * nx := Nat.mul_le_mul_right nx hi
  unfold tileFlat
  rw [flatten_getElem _ (ny * nx) ?hall t (i * nx + j) hb]
  case hall =>
    intro sl hsl
    rw [List.eq_of_mem_replicate hsl]
    exact flat2_length g ny nx h
  rw [List.getElem?_replicate, if_pos ht, Option.some_bind]
  exact flat2_getElem g ny nx h i j hi hj

/-- Indexing a column built by tiling one scalar per time step over the
(ny·nx) spatial cells: every row of time step `t` reads scalar `t`. -/
lemma repcol_getElem {α : Type} (l : List α) (L t k : ℕ) (hk : k < L)
    (ht : t < l.length) :
    ((l.map fun sc => List.replicate L sc).flatten)[t * L + k]? = l[t]? := by
  rw [flatten_getElem _ L ?hall t k hk]
  case hall =>
    intro sl hsl
    simp only [List.mem_map] at hsl
    obtain ⟨a, _, rfl⟩ := hsl
    exact List.length_replicate L a
  rw [List.getElem?_map, List.getElem?_eq_getElem ht]
  simp [List.getElem?_replicate, hk]

lemma scramble_2d_rect_dims (g : Grid) (p : Option Phase) (r : Phase)
    (ny nx : ℕ) (h : GridRect g ny nx) :
    GridRect (scramble_2d g p r) ny nx := by
  rcases Nat.eq_zero_or_pos ny with h0 | hpos
  · subst h0
    have hnil : g = [] := List.length_eq_zero.mp h.1
    subst hnil
    refine ⟨by simp [scramble_2d], ?_⟩
    intro row hrow
    simp [scramble_2d] at hrow
  · have h0lt : 0 < g.length := h.1 ▸ hpos
    have hhead : (g.getD 0 []).length = nx := by
      have e1 : g.getD 0 [] = g[0] := by
        rw [List.getD_eq_getElem?_getD, List.getElem?_eq_getElem h0lt]
        rfl
      rw [e1]
      exact h.2 _ (List.getElem_mem h0lt)
    have hr := scramble_2d_rect g p r
    rw [h.1, hhead] at hr
    exact hr

lemma scramble_3d_rect (cu : Cube) (r : ℕ → Phase) (T ny nx : ℕ)
    (h : CubeRect cu T ny nx) : CubeRect (scramble_3d cu r) T ny nx := by
  refine ⟨by simp [scramble_3d, h.1], ?_⟩
  intro g hg
  simp only [scramble_3d, List.mem_map] at hg
  obtain ⟨q, hq, rfl⟩ := hg
  exact scramble_2d_rect_dims q.2 none (r q.1) ny nx
    (h.2 q.2 (snd_mem_of_mem_enum hq))

lemma cellwise_rect (op : ℝ → ℝ → ℝ) (ny nx : ℕ) (gs : List Grid) :
    GridRect (cellwise op ny nx gs) ny nx := by
  refine ⟨by simp [cellwise], ?_⟩
  intro row hrow
  simp only [cellwise, List.mem_map, List.mem_range] at hrow
  obtain ⟨i, _, rfl⟩ := hrow
  simp

lemma noneGrid_rect (ny nx : ℕ) : GridRect (noneGrid ny nx) ny nx := by
  refine ⟨by simp [noneGrid], ?_⟩
  intro row hrow
  simp only [noneGrid, List.mem_map, List.mem_range] at hrow
  obtain ⟨i, _, rfl⟩ := hrow
  simp

lemma rollingAgg_rect (op : ℝ → ℝ → ℝ) (ny nx : ℕ) (cu : Cube) :
    CubeRect (rollingAgg op ny nx cu) cu.length ny nx := by
  refine ⟨by simp [rollingAgg], ?_⟩
  intro g hg
  simp only [rollingAgg, List.mem_map, List.mem_range] at hg
  obtain ⟨t, _, rfl⟩ := hg
  split
  · exact noneGrid_rect ny nx
  · exact cellwise_rect op ny nx _

lemma groupbyAgg_rect (op : ℝ → ℝ → ℝ) (ny nx : ℕ) (times : List TimeLabel)
    (cu : Cube) : ∀ a ∈ groupbyAgg op ny nx times cu, GridRect a ny nx := by
  intro a ha
  simp only [groupbyAgg, List.mem_map] at ha
  obtain ⟨yr, _, rfl⟩ := ha
  exact cellwise_rect op ny nx _

lemma smooth_rect (g : Grid) (sd : ℚ) :
    GridRect (smooth g sd) g.length (g.getD 0 []).length := by
  refine ⟨by simp [smooth], ?_⟩
  intro row hrow
  simp only [smooth, List.mem_map, List.mem_range] at hrow
  obtain ⟨i, _, rfl⟩ := hrow
  simp

lemma smooth_rect_dims (g : Grid) (sd : ℚ) (ny nx : ℕ) (h : GridRect g ny nx) :
    GridRect (smooth g sd) ny nx := by
  rcases Nat.eq_zero_or_pos ny with h0 | hpos
  · subst h0
    have hnil : g = [] := List.length_eq_zero.mp h.1
    subst hnil
    refine ⟨by simp [smooth], ?_⟩
    intro row hrow
    simp [smooth] at hrow
  · have h0lt : 0 < g.length := h.1 ▸ hpos
    have hhead : (g.getD 0 []).length = nx := by
      have e1 : g.getD 0 [] = g[0] := by
        rw [List.getD_eq_getElem?_getD, List.getElem?_eq_getElem h0lt]
        rfl
      rw [e1]
      exact h.2 _ (List.getElem_mem h0lt)
    have hr := smooth_rect g sd
    rw [h.1, hhead] at hr
    exact hr

/-- A filter on the first components of a zip of aligned lists keeps as many
entries as the filter on the first list alone. -/
lemma zip_filter_fst_length {α β : Type} (P : α → Bool) :
    ∀ (ts : List α) (cs : List β), cs.length = ts.length →
    ((ts.zip cs).filter fun q => P q.1).length = (ts.filter P).length := by
  intro ts
  induction ts with
  | nil =>
    intro cs h
    simp
  | cons t ts ih =>
    intro cs h
    cases cs with
    | nil => simp at h
    | cons c cs =>
      have hc : cs.length = ts.length := by simpa using h
      by_cases hp : P t
      · simp [List.zip_cons_cons, List.filter_cons, hp, ih cs hc]
      · simp [List.zip_cons_cons, List.filter_cons, hp, ih cs hc]

lemma selCube_rect (times : List TimeLabel) (cu : Cube) (lo hi : TimeLabel)
    (T ny nx : ℕ) (h : CubeRect cu T ny nx) (hT : times.length = T) :
    CubeRect (selCube times cu lo hi)
      (times.filter (inPeriod lo hi)).length ny nx := by
  constructor
  · unfold selCube
    rw [List.length_map]
    exact zip_filter_fst_length (inPeriod lo hi) times cu (h.1.trans hT.symm)
  · intro g hg
    unfold selCube at hg
    simp only [List.mem_map, List.mem_filter] at hg
    obtain ⟨q, ⟨hq, _⟩, rfl⟩ := hg
    exact h.2 q.2 (List.of_mem_zip hq).2

lemma selClimate_WF (c : Climate) (lo hi : TimeLabel) (h : ClimateWF c) :
    ClimateWF (selClimate c lo hi) := by
  intro p hp
  simp only [selClimate, List.mem_map] at hp
  obtain ⟨q, hq, rfl⟩ := hp
  exact selCube_rect c.times q.2 lo hi c.times.length c.ny c.nx
    (h q hq) rfl

/-- Length of a flattening of equal-length chunks. -/
lemma const_chunks_length {α β : Type} (l : List α) (g : α → List β) (K : ℕ)
    (h : ∀ a ∈ l, (g a).length = K) : ((l.map g).flatten).length = l.length * K := by
  rw [List.length_flatten]
  have hrep : (l.map g).map List.length = List.replicate l.length K := by
    refine List.eq_replicate.mpr ⟨by simp, ?_⟩
    intro b hb
    simp only [List.map_map, List.mem_map] at hb
    obtain ⟨a, ha, rfl⟩ := hb
    exact h a ha
  rw [hrep, List.sum_replicate, smul_eq_mul]

lemma xBlock_cols_length (c : Climate) (scr : Bool) (randC : ℕ → ℕ → Phase)
    (h : ClimateWF c) :
    ∀ col ∈ xBlock c scr randC, col.length = c.times.length * (c.ny * c.nx) := by
  intro col hcol
  unfold xBlock at hcol
  cases scr with
  | false =>
    simp only [Bool.false_eq_true, if_false, List.mem_map] at hcol
    obtain ⟨p, hp, rfl⟩ := hcol
    exact flat3_length p.2 _ _ _ (h p hp)
  | true =>
    simp only [if_true, List.mem_map] at hcol
    obtain ⟨q, hq, rfl⟩ := hcol
    exact flat3_length _ _ _ _
      (scramble_3d_rect q.2.2 (randC q.1) _ _ _ (h q.2 (snd_mem_of_mem_enum hq)))

lemma fBlock_cols_length (nftd : List Grid) (T : ℕ) (scr : Bool)
    (randF : ℕ → Phase) (ny nx : ℕ) (h : ∀ g ∈ nftd, GridRect g ny nx) :
    ∀ col ∈ fBlock nftd T scr randF, col.length = T * (ny * nx) := by
  intro col hcol
  unfold fBlock at hcol
  cases scr with
  | false =>
    simp only [Bool.false_eq_true, if_false, List.mem_map] at hcol
    obtain ⟨g, hg, rfl⟩ := hcol
    exact tileFlat_length T g ny nx (h g hg)
  | true =>
    simp only [if_true, List.mem_map] at hcol
    obtain ⟨q, hq, rfl⟩ := hcol
    exact tileFlat_length T _ ny nx
      (scramble_2d_rect_dims q.2 none (randF q.1) ny nx (h q.2 (snd_mem_of_mem_enum hq)))

lemma groupbyAgg_length (op : ℝ → ℝ → ℝ) (ny nx : ℕ) (times : List TimeLabel)
    (cu : Cube) : (groupbyAgg op ny nx times cu).length = (yearsOf times).length := by
  simp [groupbyAgg]

lemma f2colGroupby_length (op : ℝ → ℝ → ℝ) (c : Climate) (name : String) :
    (f2colGroupby op c name).length =
      (yearsOf c.times).length * (12 * (c.ny * c.nx)) := by
  unfold f2colGroupby
  rw [const_chunks_length _ _ (12 * (c.ny * c.nx))
    (fun a _ => List.length_replicate _ _), groupbyAgg_length]

lemma rollingAgg_length (op : ℝ → ℝ → ℝ) (ny nx : ℕ) (cu : Cube) :
    (rollingAgg op ny nx cu).length = cu.length := by
  simp [rollingAgg]

lemma f2colRolling_length (op : ℝ → ℝ → ℝ) (c : Climate) (name : String)
    (lo hi : TimeLabel)
    (hvar : CubeRect (getVar c name) c.times.length c.ny c.nx)
    (hall : ∀ t ∈ c.times, inPeriod lo hi t = true) :
    (f2colRolling op c name lo hi).length = c.times.length * (c.ny * c.nx) := by
  unfold f2colRolling
  have hroll : (rollingAgg op c.ny c.nx (getVar c name)).length = c.times.length := by
    rw [rollingAgg_length, hvar.1]
  have hsel : (selCube c.times (rollingAgg op c.ny c.nx (getVar c name)) lo hi).length
      = c.times.length := by
    unfold selCube
    rw [List.length_map, zip_filter_fst_length _ _ _ hroll,
      List.filter_eq_self.mpr hall]
  rw [const_chunks_length _ _ (c.ny * c.nx)
    (fun a _ => List.length_replicate _ _), List.length_map, hsel]

lemma f2Block_cols_length_rolling (c : Climate) (lo hi : TimeLabel)
    (htm : CubeRect (getVar c "tmean") c.times.length c.ny c.nx)
    (hpp : CubeRect (getVar c "ppt") c.times.length c.ny c.nx)
    (hall : ∀ t ∈ c.times, inPeriod lo hi t = true) :
    ∀ col ∈ f2Block c (some (lo, hi)),
      col.length = c.times.length * (c.ny * c.nx) := by
  intro col hcol
  simp only [f2Block, List.mem_cons, List.not_mem_nil, or_false] at hcol
  rcases hcol with rfl | rfl
  · exact f2colRolling_length _ c "tmean" lo hi htm hall
  · exact f2colRolling_length _ c "ppt" lo hi hpp hall

lemma f2Block_cols_length_groupby (c : Climate) :
    ∀ col ∈ f2Block c none,
      col.length = (yearsOf c.times).length * (12 * (c.ny * c.nx)) := by
  intro col hcol
  simp only [f2Block, List.mem_cons, List.not_mem_nil, or_false] at hcol
  rcases hcol with rfl | rfl
  · exact f2colGroupby_length _ c "tmean"
  · exact f2colGroupby_length _ c "ppt"

lemma f3Block_cols_length_rolling (c : Climate) (lo hi : TimeLabel)
    (gks : Option ℚ)
    (htm : CubeRect (getVar c "tmean") c.times.length c.ny c.nx)
    (hpp : CubeRect (getVar c "ppt") c.times.length c.ny c.nx) :
    ∀ col ∈ f3Block c (some (lo, hi)) gks,
      col.length = c.times.length * (c.ny * c.nx) := by
  intro col hcol
  simp only [f3Block, List.mem_cons, List.not_mem_nil, or_false] at hcol
  rcases hcol with rfl | rfl
  · refine flat3_length _ c.times.length c.ny c.nx ?_
    have hr := rollingAgg_rect (fun a b => max a b) c.ny c.nx (getVar c "tmean")
    rw [htm.1] at hr
    exact hr
  · refine flat3_length _ c.times.length c.ny c.nx ?_
    have hr := rollingAgg_rect (fun a b => a + b) c.ny c.nx (getVar c "ppt")
    rw [hpp.1] at hr
    exact hr

lemma f3Block_cols_length_groupby (c : Climate) (gks : Option ℚ) :
    ∀ col ∈ f3Block c none gks,
      col.length = (yearsOf c.times).length * (12 * (c.ny * c.nx)) := by
  intro col hcol
  cases gks with
  | some k =>
    simp only [f3Block, List.mem_cons, List.not_mem_nil, or_false] at hcol
    rcases hcol with rfl | rfl
    · rw [const_chunks_length _ _ (12 * (c.ny * c.nx))
        (fun a ha => tileFlat_length 12 _ c.ny c.nx
          (smooth_rect_dims a k c.ny c.nx (groupbyAgg_rect _ c.ny c.nx _ _ a ha))),
        groupbyAgg_length]
    · rw [const_chunks_length _ _ (12 * (c.ny * c.nx))
        (fun a ha => tileFlat_length 12 _ c.ny c.nx
          (smooth_rect_dims a k c.ny c.nx (groupbyAgg_rect _ c.ny c.nx _ _ a ha))),
        groupbyAgg_length]
  | none =>
    simp only [f3Block, List.mem_cons, List.not_mem_nil, or_false] at hcol
    rcases hcol with rfl | rfl
    · rw [const_chunks_length _ _ (12 * (c.ny * c.nx))
        (fun a ha => tileFlat_length 12 a c.ny c.nx
          (groupbyAgg_rect _ c.ny c.nx _ _ a ha)),
        groupbyAgg_length]
    · rw [const_chunks_length _ _ (12 * (c.ny * c.nx))
        (fun a ha => tileFlat_length 12 a c.ny c.nx
          (groupbyAgg_rect _ c.ny c.nx _ _ a ha)),
        groupbyAgg_length]

/-- C4: in fit mode (with `mtbs` supplied) `fire` returns the triple
`(x, y, f3)`, `y` being the flattened `mtbs['monthly']`, when local climate
trends were computed; and the same `return x, y, f3` statement fails with the
`f3` name-resolution error (`UnboundLocalError`) when
`add_local_climate_trends=False`, since no branch ever assigned `f3`. -/
theorem C4_fit_return (full : Climate) (nftd : List Grid) (m : Mtbs)
    (scr : Bool) (rp : Option (TimeLabel × TimeLabel)) (gks : Option ℚ)
    (randC : ℕ → ℕ → Phase) (randF : ℕ → Phase) :
    fire full nftd (some m) false scr false rp gks randC randF = .errUnboundF3
    ∧ fire full nftd (some m) false scr true rp gks randC randF =
        .fit (xFinal (climOf full rp) nftd scr true rp gks randC randF)
          (flat3 m.monthly) (f3Block (climOf full rp) rp gks) :=
  ⟨rfl, rfl⟩

/-- C5 (amended): with a NONZERO kernel size the design matrix is `[x, f]`
(the global block `f2` is dropped), and `f3` is appended exactly when local
trends are requested; with the kernel size absent — or EQUAL TO 0, which
Python truthiness treats like absent — the matrix is `[x, f, f2]` and `f3` is
never appended.  The original claim, which included
`gaussian_kernel_size=0` among the "given" kernel sizes, is false:
`C5_counterexample`. -/
theorem C5_concat (c : Climate) (nftd : List Grid) (scr addl : Bool)
    (rp : Option (TimeLabel × TimeLabel))
    (randC : ℕ → ℕ → Phase) (randF : ℕ → Phase) :
    (∀ k : ℚ, k ≠ 0 →
      xFinal c nftd scr addl rp (some k) randC randF =
        (xBlock c scr randC ++ fBlock nftd c.times.length scr randF) ++
          (if addl then f3Block c rp (some k) else []))
    ∧ xFinal c nftd scr addl rp none randC randF =
        xBlock c scr randC ++ fBlock nftd c.times.length scr randF ++
          f2Block c rp
    ∧ xFinal c nftd scr addl rp (some 0) randC randF =
        xBlock c scr randC ++ fBlock nftd c.times.length scr randF ++
          f2Block c rp := by
  refine ⟨fun k hk => ?_, ?_, ?_⟩
  · unfold xFinal
    have ht : gksTruthy (some k) = true := by simp [gksTruthy, hk]
    rw [ht]
    cases addl <;> simp
  · unfold xFinal
    simp [gksTruthy]
  · unfold xFinal
    have ht : gksTruthy (some 0) = false := by simp [gksTruthy]
    rw [ht]
    simp

/-- C5, counterexample: with `gaussian_kernel_size=0` — a given kernel-size
value — the claim predicts the design matrix `[x, f]`; the code takes the
falsy branch and produces `[x, f, f2]` (5 columns instead of 3). -/
theorem C5_counterexample :
    xFinal clim12 [imgOne] false false none (some 0) randC0 randF0 ≠
      xBlock clim12 false randC0 ++
        fBlock [imgOne] clim12.times.length false randF0 := by
  intro h
  have hlen := congrArg List.length h
  simp [xFinal, gksTruthy, xBlock, fBlock, f2Block, clim12] at hlen

/-- Witness for `C5_concat` at kernel size 1. -/
theorem C5_concat_witness :
    ((1 : ℚ) ≠ 0)
    ∧ xFinal clim12 [imgOne] false false none (some 1) randC0 randF0 =
        (xBlock clim12 false randC0 ++
          fBlock [imgOne] clim12.times.length false randF0) ++
          (if false then f3Block clim12 none (some 1) else []) :=
  ⟨by norm_num,
   (C5_concat clim12 [imgOne] false false none randC0 randF0).1 1 (by norm_num)⟩

/-- C8 (amended): every feature block built by `fire` has `T·ny·nx` rows —
unconditionally for the climate block `x`, the tiled land-type block `f`, and
the rolling-mode `f2`/`f3`; for the groupby-mode `f2`/`f3` under the proviso
that the time axis consists of whole calendar years (`12·#years = T`), since
the code tiles every yearly aggregate over exactly 12 months.  All blocks
flatten in the same (t, y, x) row-major order, witnessed by the indexing laws
of `flat3` and `tileFlat`.  The unconditional original claim is false for
partial years: `C8_counterexample`. -/
theorem C8_block_shapes :
    (∀ (c : Climate) (scr : Bool) (randC : ℕ → ℕ → Phase), ClimateWF c →
      ∀ col ∈ xBlock c scr randC, col.length = c.times.length * (c.ny * c.nx))
    ∧ (∀ (nftd : List Grid) (T : ℕ) (scr : Bool) (randF : ℕ → Phase) (ny nx : ℕ),
      (∀ g ∈ nftd, GridRect g ny nx) →
      ∀ col ∈ fBlock nftd T scr randF, col.length = T * (ny * nx))
    ∧ (∀ (c : Climate) (lo hi : TimeLabel),
      CubeRect (getVar c "tmean") c.times.length c.ny c.nx →
      CubeRect (getVar c "ppt") c.times.length c.ny c.nx →
      (∀ t ∈ c.times, inPeriod lo hi t = true) →
      ∀ col ∈ f2Block c (some (lo, hi)),
        col.length = c.times.length * (c.ny * c.nx))
    ∧ (∀ c : Climate, 12 * (yearsOf c.times).length = c.times.length →
      ∀ col ∈ f2Block c none, col.length = c.times.length * (c.ny * c.nx))
    ∧ (∀ (c : Climate) (lo hi : TimeLabel) (gks : Option ℚ),
      CubeRect (getVar c "tmean") c.times.length c.ny c.nx →
      CubeRect (getVar c "ppt") c.times.length c.ny c.nx →
      ∀ col ∈ f3Block c (some (lo, hi)) gks,
        col.length = c.times.length * (c.ny * c.nx))
    ∧ (∀ (c : Climate) (gks : Option ℚ),
      12 * (yearsOf c.times).length = c.times.length →
      ∀ col ∈ f3Block c none gks, col.length = c.times.length * (c.ny * c.nx))
    ∧ (∀ (cu : Cube) (T ny nx t i j : ℕ), CubeRect cu T ny nx →
      t < T → i < ny → j < nx →
      (flat3 cu)[t * (ny * nx) + (i * nx + j)]? = some (cellAt3 cu t i j))
    ∧ (∀ (T : ℕ) (g : Grid) (ny nx t i j : ℕ), GridRect g ny nx →
      t < T → i < ny → j < nx →
      (tileFlat T g)[t * (ny * nx) + (i * nx + j)]? = some (cellAt g i j)) := by
  refine ⟨?_, ?_, ?_, ?_, ?_, ?_, ?_, ?_⟩
  · exact fun c scr randC h => xBlock_cols_length c scr randC h
  · exact fun nftd T scr randF ny nx h => fBlock_cols_length nftd T scr randF ny nx h
  · exact fun c lo hi htm hpp hall => f2Block_cols_length_rolling c lo hi htm hpp hall
  · intro c hyears col hcol
    rw [f2Block_cols_length_groupby c col hcol, ← hyears]
    ring
  · exact fun c lo hi gks htm hpp => f3Block_cols_length_rolling c lo hi gks htm hpp
  · intro c gks hyears col hcol
    rw [f3Block_cols_length_groupby c gks col hcol, ← hyears]
    ring
  · exact fun cu T ny nx t i j h ht hi hj => flat3_getElem cu T ny nx h t i j ht hi hj
  · exact fun T g ny nx t i j h ht hi hj => tileFlat_getElem T g ny nx h t i j ht hi hj

/-- C8, counterexample: on a 13-month time axis covering two (partial)
calendar years, the groupby-mode global-trend block has 2·12·1·1 = 24 rows,
not T·Y·X = 13. -/
theorem C8_counterexample :
    ¬ (∀ col ∈ f2Block clim13 none,
        col.length = clim13.times.length * (clim13.ny * clim13.nx)) := by
  intro h
  have hcol := h (f2colGroupby (fun a b => max a b) clim13 "tmean")
    (by simp [f2Block])
  rw [f2colGroupby_length] at hcol
  have hy : (yearsOf clim13.times).length = 2 := by decide
  have ht : clim13.times.length = 13 := rfl
  rw [hy, ht] at hcol
  simp [clim13] at hcol

lemma imgOne_rect : GridRect imgOne 1 1 := by
  refine ⟨by simp [imgOne], ?_⟩
  intro r hr
  simp only [imgOne, List.mem_singleton] at hr
  subst hr
  simp

lemma cube12_rect : CubeRect (List.replicate 12 imgOne) 12 1 1 := by
  refine ⟨by simp, ?_⟩
  intro g hgm
  rw [List.eq_of_mem_replicate hgm]
  exact imgOne_rect

lemma clim12_WF : ClimateWF clim12 := by
  intro p hp
  simp only [clim12, List.mem_cons, List.not_mem_nil, or_false] at hp
  have ht : clim12.times.length = 12 := rfl
  rcases hp with rfl | rfl <;>
    · show CubeRect (List.replicate 12 imgOne) clim12.times.length clim12.ny clim12.nx
      rw [ht]
      exact cube12_rect

lemma clim12_years : 12 * (yearsOf clim12.times).length = clim12.times.length := by
  decide

/-- Witness for `C8_block_shapes` on the whole-year 12-month dataset. -/
theorem C8_block_shapes_witness :
    (ClimateWF clim12 ∧ 12 * (yearsOf clim12.times).length = clim12.times.length)
    ∧ (∀ col ∈ xBlock clim12 false randC0,
        col.length = clim12.times.length * (clim12.ny * clim12.nx))
    ∧ (∀ col ∈ f2Block clim12 none,
        col.length = clim12.times.length * (clim12.ny * clim12.nx))
    ∧ (flat3 (List.replicate 12 imgOne))[0 * (1 * 1) + (0 * 1 + 0)]? =
        some (cellAt3 (List.replicate 12 imgOne) 0 0 0) := by
  exact ⟨⟨clim12_WF, clim12_years⟩,
    C8_block_shapes.1 clim12 false randC0 clim12_WF,
    (C8_block_shapes.2.2.2.1) clim12 clim12_years,
    (C8_block_shapes.2.2.2.2.2.2.1) (List.replicate 12 imgOne) 12 1 1 0 0 0 cube12_rect
      (by norm_num) (by norm_num) (by norm_num)⟩

/-- Indexing the assembled design matrix inside the climate block. -/
lemma xFinal_getElem_var (c : Climate) (nftd : List Grid) (scr addl : Bool)
    (rp : Option (TimeLabel × TimeLabel)) (gks : Option ℚ)
    (randC : ℕ → ℕ → Phase) (randF : ℕ → Phase) (k : ℕ)
    (hk : k < (xBlock c scr randC).length) :
    (xFinal c nftd scr addl rp gks randC randF)[k]? =
      (xBlock c scr randC)[k]? := by
  unfold xFinal
  have hk2 : k < (xBlock c scr randC ++
      fBlock nftd c.times.length scr randF).length := by
    rw [List.length_append]
    omega
  by_cases ht : gksTruthy gks = true
  · simp only [ht, Bool.and_true]
    cases addl
    · simp only [Bool.false_eq_true, if_false]
      exact List.getElem?_append_left hk
    · simp only [if_true]
      rw [List.getElem?_append_left hk2]
      exact List.getElem?_append_left hk
  · have ht2 : gksTruthy gks = false := by
      cases hgt : gksTruthy gks
      · rfl
      · exact absurd hgt ht
    simp only [ht2, Bool.and_false, Bool.false_eq_true, if_false]
    rw [List.getElem?_append_left hk2]
    exact List.getElem?_append_left hk

/-- Column lengths of the assembled design matrix, `rolling_period=None`. -/
lemma xFinal_cols_length_none (c : Climate) (nftd : List Grid)
    (scr addl : Bool) (gks : Option ℚ)
    (randC : ℕ → ℕ → Phase) (randF : ℕ → Phase)
    (hwf : ClimateWF c) (hnftd : ∀ g ∈ nftd, GridRect g c.ny c.nx)
    (hyears : 12 * (yearsOf c.times).length = c.times.length) :
    ∀ col ∈ xFinal c nftd scr addl none gks randC randF,
      col.length = c.times.length * (c.ny * c.nx) := by
  intro col hcol
  unfold xFinal at hcol
  have hx := xBlock_cols_length c scr randC hwf
  have hf := fBlock_cols_length nftd c.times.length scr randF c.ny c.nx hnftd
  have hf2 : ∀ cl ∈ f2Block c none, cl.length = c.times.length * (c.ny * c.nx) := by
    intro cl hcl
    rw [f2Block_cols_length_groupby c cl hcl, ← hyears]
    ring
  have hf3 : ∀ cl ∈ f3Block c none gks,
      cl.length = c.times.length * (c.ny * c.nx) := by
    intro cl hcl
    rw [f3Block_cols_length_groupby c gks cl hcl, ← hyears]
    ring
  by_cases ht : gksTruthy gks = true
  · simp only [ht, Bool.and_true] at hcol
    cases addl
    · simp only [Bool.false_eq_true, if_false] at hcol
      rcases List.mem_append.mp hcol with h | h
      exacts [hx col h, hf col h]
    · simp only [if_true] at hcol
      rcases List.mem_append.mp hcol with h | h
      · rcases List.mem_append.mp h with h2 | h2
        exacts [hx col h2, hf col h2]
      · exact hf3 col h
  · have ht2 : gksTruthy gks = false := by
      cases hgt : gksTruthy gks
      · rfl
      · exact absurd hgt ht
    simp only [ht2, Bool.and_false, Bool.false_eq_true, if_false] at hcol
    rcases List.mem_append.mp hcol with h | h
    · rcases List.mem_append.mp h with h2 | h2
      exacts [hx col h2, hf col h2]
    · exact hf2 col h

/-- C1 (amended): with `rolling_period=None` and a target dataset on the same
(T, Y, X) grid and time axis, design-matrix rows and target entries align —
every column has exactly as many rows as the flattened target, row `i` of
both belongs to the same time label, the target flattens in (t, y, x)
row-major order, and column `k` of the matrix is exactly the flattened
(k-th, possibly scrambled) climate cube.  With a proper-subset
`rolling_period` the claim fails, because `y = mtbs['monthly']` is NOT subset
by the rolling period: `C1_counterexample`. -/
theorem C1_row_alignment (full : Climate) (nftd : List Grid) (m : Mtbs)
    (scr : Bool) (gks : Option ℚ) (randC : ℕ → ℕ → Phase) (randF : ℕ → Phase)
    (hwf : ClimateWF full) (hnftd : ∀ g ∈ nftd, GridRect g full.ny full.nx)
    (hyears : 12 * (yearsOf full.times).length = full.times.length)
    (hmt : CubeRect m.monthly full.times.length full.ny full.nx)
    (hmtt : m.times = full.times) :
    fire full nftd (some m) false scr true none gks randC randF =
      .fit (xFinal full nftd scr true none gks randC randF) (flat3 m.monthly)
        (f3Block full none gks)
    ∧ (∀ col ∈ xFinal full nftd scr true none gks randC randF,
        rowAligned full.times m.times (full.ny * full.nx) col (flat3 m.monthly))
    ∧ (∀ t i j : ℕ, t < full.times.length → i < full.ny → j < full.nx →
        (flat3 m.monthly)[t * (full.ny * full.nx) + (i * full.nx + j)]? =
          some (cellAt3 m.monthly t i j))
    ∧ (∀ (k : ℕ) (nm : String) (cu : Cube), full.vars[k]? = some (nm, cu) →
        (xFinal full nftd scr true none gks randC randF)[k]? =
          some (if scr then flat3 (scramble_3d cu (randC k)) else flat3 cu)) := by
  refine ⟨rfl, ?_, ?_, ?_⟩
  · intro col hcol
    constructor
    · rw [xFinal_cols_length_none full nftd scr true gks randC randF hwf hnftd
        hyears col hcol, flat3_length m.monthly _ _ _ hmt]
    · intro i _
      rw [hmtt]
  · exact fun t i j ht hi hj => flat3_getElem m.monthly _ _ _ hmt t i j ht hi hj
  · intro k nm cu hvar
    have hkv : k < full.vars.length := by
      by_contra hge
      rw [List.getElem?_eq_none (Nat.le_of_not_lt hge)] at hvar
      exact Option.noConfusion hvar
    have hkx : k < (xBlock full scr randC).length := by
      cases scr
      · simpa [xBlock] using hkv
      · simpa [xBlock] using hkv
    rw [xFinal_getElem_var full nftd scr true none gks randC randF k hkx]
    unfold xBlock
    cases scr
    · simp only [Bool.false_eq_true, if_false]
      rw [List.getElem?_map, hvar]
      rfl
    · simp only [if_true]
      rw [List.getElem?_map, List.getElem?_enum, hvar]
      rfl

/-- C1, counterexample: when `rolling_period` selects a proper subset (1 of 2
months) and `mtbs` spans the full axis, the design matrix has 1·1·1 = 1 row
but the target has 2·1·1 = 2 entries — row `i` and element `i` cannot all
correspond to the same cell. -/
theorem C1_counterexample :
    ¬ rowAligned (climOf clim2 (some rpFirst)).times mtbs2.times 1
        ((fire clim2 [imgOne] (some mtbs2) false false true (some rpFirst) none
          randC0 randF0).xcols.headD [])
        ((fire clim2 [imgOne] (some mtbs2) false false true (some rpFirst) none
          randC0 randF0).yvec) := by
  intro h
  have hx : ((fire clim2 [imgOne] (some mtbs2) false false true (some rpFirst) none
      randC0 randF0).xcols.headD []).length = 1 := rfl
  have hy : ((fire clim2 [imgOne] (some mtbs2) false false true (some rpFirst) none
      randC0 randF0).yvec).length = 2 := rfl
  have hlen := h.1
  omega

/-- Witness for `C1_row_alignment` on the aligned 12-month dataset. -/
theorem C1_row_alignment_witness :
    (ClimateWF clim12
      ∧ 12 * (yearsOf clim12.times).length = clim12.times.length
      ∧ CubeRect mtbs12.monthly clim12.times.length clim12.ny clim12.nx
      ∧ mtbs12.times = clim12.times)
    ∧ fire clim12 [imgOne] (some mtbs12) false false true none none randC0 randF0 =
        .fit (xFinal clim12 [imgOne] false true none none randC0 randF0)
          (flat3 mtbs12.monthly) (f3Block clim12 none none) := by
  have hnftd : ∀ g ∈ [imgOne], GridRect g clim12.ny clim12.nx := by
    intro g hg
    simp only [List.mem_singleton] at hg
    subst hg
    exact imgOne_rect
  have hmt : CubeRect mtbs12.monthly clim12.times.length clim12.ny clim12.nx := by
    show CubeRect (List.replicate 12 imgOne) clim12.times.length clim12.ny clim12.nx
    have ht : clim12.times.length = 12 := rfl
    rw [ht]
    exact cube12_rect
  exact ⟨⟨clim12_WF, clim12_years, hmt, rfl⟩,
    (C1_row_alignment clim12 [imgOne] mtbs12 false none randC0 randF0 clim12_WF
      hnftd clim12_years hmt rfl).1⟩

/-- C3: the code evaluated at the failing input.  `rowDisturbed` has
`disturb_human_1 = True`, so per the claim both builders must drop it; the
code RETAINS it (its `x`, `y` and `meta` rows all appear in the output),
because `not (df[col] is True)` is an object-identity test that is constant
`True`.  This is the code-bug evidence for C3. -/
theorem C3_disturbed_row_retained :
    drought [rowDisturbed] false 10 =
      .fitMode [[some 1, some 2, some 10, some 100, some 10]] [some (1 / 5)]
        [(40, -105, 100)]
    ∧ insects [rowDisturbed] false 10 =
      .fitMode [[some 1, some 2, some 10, some 100, some 10]] [some (1 / 10)]
        [(40, -105, 100)] := by
  constructor
  · norm_num [drought, setAgeSquared, setDurationDiff, condFilter, qgt,
      notSeriesIsTrue, keepFit, fitVarsFit, yDrought, odiv, osq, osub, metaOf,
      rowDisturbed]
  · norm_num [insects, setAgeSquared, setDurationDiff, condFilter, qgt,
      notSeriesIsTrue, keepFit, fitVarsFit, yInsects, omul, odiv, osq, osub,
      metaOf, rowDisturbed]

/-- A fold of writes to one fixed reference never changes any other cell. -/
lemma foldl_set_getElem_ne {α : Type} (rc : ℕ) (f : List α → ℕ → α) :
    ∀ (l : List ℕ) (hh : List α) (i : ℕ), i ≠ rc →
      (l.foldl (fun acc t => acc.set rc (f acc t)) hh)[i]? = hh[i]? := by
  intro l
  induction l with
  | nil =>
    intro hh i hi
    rfl
  | cons t ts ih =>
    intro hh i hi
    simp only [List.foldl_cons]
    rw [ih _ i hi, List.getElem?_set_ne fun he => hi he.symm]

/-- C10: none of `scramble_2d`, `scramble_3d`, `drought`, `insects` mutates
its caller's input — after any call, every pre-existing heap cell (the
caller's argument included) is unchanged, because each function writes only
the fresh copies it allocates. -/
theorem C10_no_caller_mutation :
    (∀ (h : List Grid) (r : ℕ) (p : Option Phase) (rand : Phase) (i : ℕ),
      i < h.length → ((scramble_2dH h r p rand).1)[i]? = h[i]?)
    ∧ (∀ (h : List Cube) (r : ℕ) (rand : ℕ → Phase) (i : ℕ),
      i < h.length → ((scramble_3dH h r rand).1)[i]? = h[i]?)
    ∧ (∀ (h : List (List Row)) (r : ℕ) (e : Bool) (d : ℚ) (i : ℕ),
      i < h.length → ((droughtH h r e d).1)[i]? = h[i]?)
    ∧ (∀ (h : List (List Row)) (r : ℕ) (e : Bool) (d : ℚ) (i : ℕ),
      i < h.length → ((insectsH h r e d).1)[i]? = h[i]?) := by
  refine ⟨?_, ?_, ?_, ?_⟩
  · intro h r p rand i hi
    simp only [scramble_2dH, hAlloc]
    rw [List.getElem?_set_ne (by simp [List.length_set]; omega),
      List.getElem?_append_left (by simp [List.length_set]; omega),
      List.getElem?_set_ne (by omega),
      List.getElem?_append_left hi]
  · intro h r rand i hi
    simp only [scramble_3dH, hAlloc]
    rw [foldl_set_getElem_ne h.length _ _ _ i (by omega),
      List.getElem?_append_left hi]
  · intro h r e d i hi
    cases e
    · simp only [droughtH, hAlloc, Bool.false_eq_true, if_false]
      rw [List.getElem?_set_ne (by simp; omega),
        List.getElem?_set_ne (by simp; omega),
        List.getElem?_append_left (by simp; omega),
        List.getElem?_append_left hi]
    · simp only [droughtH, hAlloc, if_true]
      rw [List.getElem?_set_ne (by simp; omega),
        List.getElem?_set_ne (by simp; omega),
        List.getElem?_append_left hi]
  · intro h r e d i hi
    cases e
    · simp only [insectsH, hAlloc, Bool.false_eq_true, if_false]
      rw [List.getElem?_set_ne (by simp; omega),
        List.getElem?_set_ne (by simp; omega),
        List.getElem?_append_left (by simp; omega),
        List.getElem?_append_left hi]
    · simp only [insectsH, hAlloc, if_true]
      rw [List.getElem?_set_ne (by simp; omega),
        List.getElem?_set_ne (by simp; omega),
        List.getElem?_append_left hi]

/-- Witness for `C10_no_caller_mutation` at concrete one-cell heaps. -/
theorem C10_no_caller_mutation_witness :
    ((0 : ℕ) < 1)
    ∧ ((scramble_2dH [imgOne] 0 none rand0).1)[0]? = [imgOne][0]?
    ∧ ((scramble_3dH [[imgOne]] 0 (fun _ => rand0)).1)[0]? = [[imgOne]][0]?
    ∧ ((droughtH [[rowDisturbed]] 0 false 10).1)[0]? = [[rowDisturbed]][0]?
    ∧ ((insectsH [[rowDisturbed]] 0 true 10).1)[0]? = [[rowDisturbed]][0]? :=
  ⟨Nat.one_pos,
   C10_no_caller_mutation.1 [imgOne] 0 none rand0 0 Nat.one_pos,
   C10_no_caller_mutation.2.1 [[imgOne]] 0 (fun _ => rand0) 0 Nat.one_pos,
   C10_no_caller_mutation.2.2.1 [[rowDisturbed]] 0 false 10 0 Nat.one_pos,
   C10_no_caller_mutation.2.2.2 [[rowDisturbed]] 0 true 10 0 Nat.one_pos⟩

end Prepare
